import Mathlib

/-!
Verification of the diarization-benchmark evaluation core
(`src/benchmark/evaluation/metrics.py`).

Conventions of the embedding:

* Times and durations are exact rationals (`ℚ`); the Python code uses
  floats, but every property checked here is about exact arithmetic
  identities of the algorithms, not about rounding.
* Strings are modelled as `List Char` (abbreviated `Str`) so that all
  string operations are structurally recursive and computable.
* The DER/JER scoring engine itself lives in the third-party
  `pyannote.metrics` package, which is not part of this repository's
  sources; it is modelled from the specification (section 4.2): uniform
  segments of the time axis, collar exclusion around reference turn
  boundaries, optional exclusion of overlapped reference speech, and an
  optimal one-to-one speaker assignment maximizing attributed overlap
  duration (equivalently, minimizing confusion).  Definitions whose doc
  string starts with `Modelled from the spec:` are of this kind; all
  other definitions are direct translations of the repository's Python
  code.
-/

abbrev Str := List Char

/-- Whitespace test used by the `Str` helpers (the ASCII whitespace that
Python's `str.strip` and `str.split()` treat as separators). -/
def wsChar (c : Char) : Bool :=
  c = ' ' ∨ c = '\t' ∨ c = '\n' ∨ c = '\r' ∨ c = '\x0b' ∨ c = '\x0c'

/-- Python `str.strip()` on a character list: drop whitespace from both ends. -/
def strTrim (s : Str) : Str :=
  ((s.dropWhile wsChar).reverse.dropWhile wsChar).reverse

/-- Accumulator-based splitting on whitespace runs. -/
def splitWSAux : Str → Str → List Str
  | [], acc => if acc.isEmpty then [] else [acc.reverse]
  | c :: cs, acc =>
    if wsChar c then
      if acc.isEmpty then splitWSAux cs [] else acc.reverse :: splitWSAux cs []
    else splitWSAux cs (c :: acc)

/-- Python `str.split()` (no argument): split on runs of whitespace,
discarding empty pieces. -/
def splitWS (s : Str) : List Str := splitWSAux s []

/-- Keep-last-occurrence duplicate removal for label lists (only the
member set and its size matter to the scoring engine). -/
def dedupL : List Str → List Str
  | [] => []
  | x :: xs => if x ∈ xs then dedupL xs else x :: dedupL xs

/-- Labeled segment: one `(interval, speaker label)` pair, the atomic unit
of a segment timeline (`Segment(start, start + duration)` plus its label
in the Python code). -/
structure LSeg where
  start : ℚ
  stop : ℚ
  spk : Str
deriving DecidableEq

/-- Segment timeline: the ordered collection of labeled segments that both
format adapters produce (`pyannote.core.Annotation` in the Python code). -/
abbrev Timeline := List LSeg

/-- Insertion into a sorted rational list. -/
def insertSorted (x : ℚ) : List ℚ → List ℚ
  | [] => [x]
  | y :: ys => if x ≤ y then x :: y :: ys else y :: insertSorted x ys

/-- Insertion sort for rationals (used to order breakpoints of the time axis). -/
def sortQ (l : List ℚ) : List ℚ := l.foldr insertSorted []

/-- Modelled from the spec: both endpoints of every segment of a timeline,
the candidate breakpoints of the time axis contributed by that timeline. -/
def segBounds (t : Timeline) : List ℚ :=
  t.foldr (fun s acc => s.start :: s.stop :: acc) []

/-- Modelled from the spec: all breakpoints relevant to DER scoring — the
segment bounds of reference and hypothesis plus the collar-shifted
reference turn boundaries. -/
def breakpoints (ref hyp : Timeline) (collar : ℚ) : List ℚ :=
  segBounds ref ++ segBounds hyp ++
    (segBounds ref).foldr (fun b acc => (b - collar) :: (b + collar) :: acc) []

/-- Modelled from the spec: the elementary intervals of the time axis — the
(positive-length) intervals between consecutive sorted breakpoints.  On
each of them, the sets of active reference and hypothesis speakers are
constant, so they refine the spec's uniform segments; all scored
quantities are additive over this refinement. -/
def elemIntervals (pts : List ℚ) : List (ℚ × ℚ) :=
  ((sortQ pts).zip (sortQ pts).tail).filter (fun p => decide (p.1 < p.2))

/-- Modelled from the spec: speakers of a timeline active throughout the
elementary interval `(a, b)` (each listed once). -/
def activeAt (t : Timeline) (a b : ℚ) : List Str :=
  dedupL (t.filterMap (fun s => if s.start ≤ a ∧ b ≤ s.stop then some s.spk else none))

/-- Modelled from the spec: whether the elementary interval `(a, b)` falls
inside the exclusion window of `± collar` seconds around some reference
speaker-turn boundary. -/
def inCollar (ref : Timeline) (collar a b : ℚ) : Bool :=
  (segBounds ref).any (fun t => decide (t - collar ≤ a) && decide (b ≤ t + collar))

/-- Modelled from the spec: per-elementary-interval scoring data — the
duration of the interval together with the active reference speakers and
the active hypothesis speakers, restricted to the intervals that survive
the collar policy and (when `skip` is set) the overlapped-speech policy. -/
def scoredData (ref hyp : Timeline) (collar : ℚ) (skip : Bool) :
    List (ℚ × List Str × List Str) :=
  ((elemIntervals (breakpoints ref hyp collar)).filter
      (fun p => !(inCollar ref collar p.1 p.2) &&
        (!skip || decide ((activeAt ref p.1 p.2).length ≤ 1)))).map
    (fun p => (p.2 - p.1, activeAt ref p.1 p.2, activeAt hyp p.1 p.2))

/-- Modelled from the spec: total reference speaker time over the scored
intervals (an overlapped reference speaker counts once per interval they
are active in). -/
def derTotal (data : List (ℚ × List Str × List Str)) : ℚ :=
  (data.map (fun d => d.1 * (d.2.1.length : ℚ))).sum

/-- Modelled from the spec: missed speaker time — per scored interval, the
duration times the shortfall of active hypothesis speakers below active
reference speakers. -/
def derMiss (data : List (ℚ × List Str × List Str)) : ℚ :=
  (data.map (fun d => d.1 * ((d.2.1.length - d.2.2.length : ℕ) : ℚ))).sum

/-- Modelled from the spec: false-alarm speaker time — per scored interval,
the duration times the excess of active hypothesis speakers over active
reference speakers. -/
def derFalseAlarm (data : List (ℚ × List Str × List Str)) : ℚ :=
  (data.map (fun d => d.1 * ((d.2.2.length - d.2.1.length : ℕ) : ℚ))).sum

/-- Modelled from the spec: the upper bound on correctly attributed speaker
time — per scored interval, the duration times the smaller of the two
active-speaker counts. -/
def derMinSum (data : List (ℚ × List Str × List Str)) : ℚ :=
  (data.map (fun d => d.1 * ((min d.2.1.length d.2.2.length : ℕ) : ℚ))).sum

/-- Modelled from the spec: total duration of scored intervals where
hypothesis speaker `h` and reference speaker `r` are simultaneously
active — the weight of the pair `(h, r)` in the bipartite assignment. -/
def overlapDur (data : List (ℚ × List Str × List Str)) (h r : Str) : ℚ :=
  (data.map (fun d => if h ∈ d.2.2 ∧ r ∈ d.2.1 then d.1 else 0)).sum

/-- All one-to-one partial pairings between the labels of the first list
and the labels of the second list (the search space of the optimal
bipartite assignment). -/
def matchings : List Str → List Str → List (List (Str × Str))
  | [], _ => [[]]
  | h :: hs, rs =>
    matchings hs rs ++
      rs.foldr (fun r acc => ((matchings hs (rs.erase r)).map (fun m => (h, r) :: m)) ++ acc) []

/-- Modelled from the spec: total overlap duration attributed by a given
hypothesis-to-reference speaker pairing. -/
def matchScore (data : List (ℚ × List Str × List Str)) (m : List (Str × Str)) : ℚ :=
  (m.map (fun p => overlapDur data p.1 p.2)).sum

/-- Modelled from the spec: the value of the optimal bipartite assignment —
the largest total overlap duration attainable by a one-to-one mapping of
hypothesis labels to reference labels (maximizing attributed overlap is
the same as minimizing confusion). -/
def bestScore (data : List (ℚ × List Str × List Str)) (hl rl : List Str) : ℚ :=
  ((matchings hl rl).map (matchScore data)).foldl max 0

/-- Distinct speaker labels of a timeline. -/
def labelsOf (t : Timeline) : List Str := dedupL (t.map (fun s => s.spk))

/-- Score components of one DER computation, as returned by `compute_der`:
the error components, the scored reference total, the derived rate, and
the explicit undefined signal for the `total = 0` degenerate case. -/
structure DERResult where
  der : ℚ
  miss : ℚ
  false_alarm : ℚ
  confusion : ℚ
  total : ℚ
  undefined : Bool
deriving DecidableEq

/-- Modelled from the spec: the DER computation of section 4.2 — collar and
overlap policies applied to the uniform segments, optimal one-to-one
speaker assignment, NIST component accounting, and
`DER = (miss + false_alarm + confusion) / total` with an explicit
undefined signal (and a reported rate of `0`) when no reference speech is
scored.  This models `DiarizationMetrics.compute_der`, whose scoring is
delegated to the external `pyannote.metrics` library. -/
def compute_der (ref hyp : Timeline) (collar : ℚ) (skip_overlap : Bool) : DERResult :=
  let data := scoredData ref hyp collar skip_overlap
  let t := derTotal data
  let m := derMiss data
  let f := derFalseAlarm data
  let conf := derMinSum data - bestScore data (labelsOf hyp) (labelsOf ref)
  { der := if t = 0 then 0 else (m + f + conf) / t
    miss := m
    false_alarm := f
    confusion := conf
    total := t
    undefined := decide (t = 0) }

/-- Modelled from the spec: per-elementary-interval data for JER (no collar
and no overlap policy: every positive-length elementary interval is kept). -/
def jerData (ref hyp : Timeline) : List (ℚ × List Str × List Str) :=
  (elemIntervals (segBounds ref ++ segBounds hyp)).map
    (fun p => (p.2 - p.1, activeAt ref p.1 p.2, activeAt hyp p.1 p.2))

/-- Modelled from the spec: duration during which reference speaker `r` and
hypothesis speaker `h` are both active. -/
def interDur (data : List (ℚ × List Str × List Str)) (r h : Str) : ℚ :=
  (data.map (fun d => if r ∈ d.2.1 ∧ h ∈ d.2.2 then d.1 else 0)).sum

/-- Modelled from the spec: duration during which reference speaker `r` or
hypothesis speaker `h` (or both) is active. -/
def unionDur (data : List (ℚ × List Str × List Str)) (r h : Str) : ℚ :=
  (data.map (fun d => if r ∈ d.2.1 ∨ h ∈ d.2.2 then d.1 else 0)).sum

/-- Modelled from the spec: the Jaccard index of a reference/hypothesis
speaker pair — intersection duration over union duration.  A pair whose
union duration is zero (two speakers with no positive speech time) gets
the conventional Jaccard index of equal empty sets, `1`. -/
def jaccard (data : List (ℚ × List Str × List Str)) (r h : Str) : ℚ :=
  if unionDur data r h = 0 then 1 else interDur data r h / unionDur data r h

/-- Modelled from the spec: total Jaccard index attributed by a given
reference-to-hypothesis speaker pairing. -/
def jerScore (data : List (ℚ × List Str × List Str)) (m : List (Str × Str)) : ℚ :=
  (m.map (fun p => jaccard data p.1 p.2)).sum

/-- Modelled from the spec: the best total Jaccard index over one-to-one
reference-to-hypothesis speaker pairings. -/
def bestJerScore (data : List (ℚ × List Str × List Str)) (rl hl : List Str) : ℚ :=
  ((matchings rl hl).map (jerScore data)).foldl max 0

/-- Modelled from the spec: the JER computation of section 4.2 —
`JER = 1 - mean(Jaccard index)` under the best distinct assignment, the
mean taken over the union of reference and hypothesis speaker identities
with a matched pair counted once (so the denominator is the larger of the
two label counts) and unmatched identities scoring `0`.  This models
`DiarizationMetrics.compute_jer`, whose scoring is delegated to the
external `pyannote.metrics` library.  With no speakers at all the mean is
empty and the result is `0`. -/
def compute_jer (ref hyp : Timeline) : ℚ :=
  let data := jerData ref hyp
  let rl := labelsOf ref
  let hl := labelsOf hyp
  let n := max rl.length hl.length
  if n = 0 then 0 else 1 - bestJerScore data rl hl / n

/-- Relabeling of a timeline's speakers by a function on labels (used to
state label-invariance of the scoring engine). -/
def relabel (σ : Str → Str) (t : Timeline) : Timeline :=
  t.map (fun s => ⟨s.start, s.stop, σ s.spk⟩)

/-- Value of a decimal digit character, if it is one. -/
def digitVal (c : Char) : Option ℕ :=
  if c = '0' then some 0 else if c = '1' then some 1 else if c = '2' then some 2
  else if c = '3' then some 3 else if c = '4' then some 4 else if c = '5' then some 5
  else if c = '6' then some 6 else if c = '7' then some 7 else if c = '8' then some 8
  else if c = '9' then some 9 else none

/-- Consume a (possibly empty) run of decimal digits, returning the value
read, the number of digits read, and the rest of the input. -/
def digitsAux : Str → ℕ → ℕ → (ℕ × ℕ) × Str
  | [], v, cnt => ((v, cnt), [])
  | c :: cs, v, cnt =>
    match digitVal c with
    | some d => digitsAux cs (10 * v + d) (cnt + 1)
    | none => ((v, cnt), c :: cs)

/-- Exponent tail of a float literal: empty input means exponent `0`;
otherwise an `e`/`E` followed by an optionally signed non-empty digit run
consuming the whole rest. -/
def parseExpTail : Str → Option ℤ
  | [] => some 0
  | c :: cs =>
    if c = 'e' ∨ c = 'E' then
      match cs with
      | '+' :: ds =>
        (match digitsAux ds 0 0 with
         | ((v, cnt), []) => if cnt = 0 then none else some (v : ℤ)
         | _ => none)
      | '-' :: ds =>
        (match digitsAux ds 0 0 with
         | ((v, cnt), []) => if cnt = 0 then none else some (-(v : ℤ))
         | _ => none)
      | ds =>
        (match digitsAux ds 0 0 with
         | ((v, cnt), []) => if cnt = 0 then none else some (v : ℤ)
         | _ => none)
    else none

/-- Unsigned float literal: digits with an optional fractional part (at
least one digit overall) and an optional exponent. -/
def parseUFloat (s : Str) : Option ℚ :=
  match digitsAux s 0 0 with
  | ((ip, ic), '.' :: r2) =>
    (match digitsAux r2 0 0 with
     | ((fp, fc), r3) =>
       if ic + fc = 0 then none
       else (parseExpTail r3).map (fun e => ((ip : ℚ) + (fp : ℚ) / 10 ^ fc) * 10 ^ e))
  | ((ip, ic), r1) =>
    if ic = 0 then none else (parseExpTail r1).map (fun e => (ip : ℚ) * 10 ^ e)

/-- Python's `float()` conversion, modelled for decimal literals: optional
surrounding whitespace, optional sign, digits with optional fractional
part and optional exponent, exactly as in the RTTM corpora this parser is
used on (`inf`, `nan` and underscore separators are not modelled — they
have no rational counterpart or do not occur in RTTM fields).  Returns
`none` where `float()` raises `ValueError`. -/
def parseFloat (s : Str) : Option ℚ :=
  match strTrim s with
  | '+' :: r => parseUFloat r
  | '-' :: r => (parseUFloat r).map Neg.neg
  | r => parseUFloat r

/-- First field expected on an RTTM speaker line. -/
def speakerTag : Str := "SPEAKER".data

/-- Error value standing for the `ValueError` that `float()` raises on a
malformed numeric field. -/
def floatErr : Str := "could not convert to float".data

/-- One line of `DiarizationMetrics.rttm_to_annotation`: strip the line;
skip it when blank or a `#` comment; split on whitespace; skip it when
fewer than 8 fields are present or the first field is not `SPEAKER`;
otherwise read `start` from field 4 and `duration` from field 5 as floats
(a failed conversion propagates as an error) and produce the labeled
segment `(start, start + duration, field 8)`. -/
def parseLine (line : Str) : Except Str (Option LSeg) :=
  let l := strTrim line
  if l.isEmpty then .ok none
  else if l.headD ' ' = '#' then .ok none
  else
    let parts := splitWS l
    if parts.length < 8 ∨ parts.getD 0 [] ≠ speakerTag then .ok none
    else
      match parseFloat (parts.getD 3 []), parseFloat (parts.getD 4 []) with
      | some s, some d => .ok (some ⟨s, s + d, parts.getD 7 []⟩)
      | _, _ => .error floatErr

/-- Fold of `parseLine` over the lines of the input, keeping the valid
segments in order; a line error aborts the parse. -/
def parseLines : List Str → Except Str (List LSeg)
  | [] => .ok []
  | l :: ls =>
    match parseLine l with
    | .error e => .error e
    | .ok none => parseLines ls
    | .ok (some seg) => (parseLines ls).map (fun t => seg :: t)

/-- Split a character list at every occurrence of a separator character. -/
def splitChAux (sep : Char) : Str → Str → List Str
  | [], acc => [acc.reverse]
  | c :: cs, acc =>
    if c = sep then acc.reverse :: splitChAux sep cs [] else splitChAux sep cs (c :: acc)

/-- Lines of a text, as Python's line iteration presents them to the
stripping step (the trailing newline that Python keeps on each line is
whitespace and is removed by `strip` either way). -/
def strLines (s : Str) : List Str := splitChAux '\n' s []

/-- The timeline built by `DiarizationMetrics.rttm_to_annotation` from the
text of an RTTM file (named as in the specification). -/
def rttm_to_timeline (text : Str) : Except Str (List LSeg) := parseLines (strLines text)

/-- Raw hypothesis segment entry: the three dictionary fields that
`DiarizationMetrics.hypothesis_to_annotation` reads, each possibly
absent. -/
structure SegEntry where
  start? : Option ℚ
  stop? : Option ℚ
  speaker? : Option Str
deriving DecidableEq

/-- Error value standing for the `KeyError` raised on a segment entry with
a missing `start`, `end` or `speaker` key. -/
def keyErr : Str := "KeyError".data

/-- Read one hypothesis segment entry: all three keys must be present,
exactly as the subscript accesses in the Python code require. -/
def entryToSeg (e : SegEntry) : Except Str LSeg :=
  match e.start?, e.stop?, e.speaker? with
  | some s, some t, some sp => .ok ⟨s, t, sp⟩
  | _, _, _ => .error keyErr

/-- Fold of `entryToSeg` over the entries of the `segments` list. -/
def entriesToSegs : List SegEntry → Except Str (List LSeg)
  | [] => .ok []
  | e :: es =>
    match entryToSeg e with
    | .error err => .error err
    | .ok seg => (entriesToSegs es).map (fun t => seg :: t)

/-- The timeline built by `DiarizationMetrics.hypothesis_to_annotation`
(named as in the specification): the record is its optional `segments`
list (`hypothesis.get("segments", [])` turns an absent key into the empty
list), and each entry contributes one labeled segment. -/
def hypothesis_to_timeline (record : Option (List SegEntry)) : Except Str (List LSeg) :=
  entriesToSegs (record.getD [])

/-- A metric value as stored in a metrics dictionary: numeric or not (the
`isinstance(value, (int, float))` test of the aggregation code). -/
inductive MVal where
  | num (q : ℚ)
  | other
deriving DecidableEq

/-- A per-file metrics dictionary, in insertion order. -/
abbrev MRecord := List (Str × MVal)

/-- One accumulated item of `MetricAggregator`: the metrics dictionary and
the optional file identifier, as stored by `add`. -/
structure AggItem where
  metrics : MRecord
  file_id : Option Str
deriving DecidableEq

/-- The state of a `MetricAggregator`: the list `self.metrics`. -/
abbrev AggState := List AggItem

/-- `MetricAggregator.add`: append one per-file record. -/
def agg_add (m : MRecord) (fid : Option Str) (st : AggState) : AggState :=
  st ++ [⟨m, fid⟩]

/-- Numeric entries of one metrics dictionary, in insertion order. -/
def numsOfRecord (m : MRecord) : List (Str × ℚ) :=
  m.filterMap (fun kv =>
    match kv.2 with
    | .num q => some (kv.1, q)
    | .other => none)

/-- All numeric metric entries of the accumulated records, in the order the
aggregation loop visits them. -/
def flatNums (st : AggState) : List (Str × ℚ) :=
  st.foldr (fun it acc => numsOfRecord it.metrics ++ acc) []

/-- Append a value to the list held under a key, creating the key at the
end on first sight (the `metric_values` dictionary update of
`MetricAggregator.aggregate`). -/
def upsert (k : Str) (v : ℚ) : List (Str × List ℚ) → List (Str × List ℚ)
  | [] => [(k, [v])]
  | e :: es => if e.1 = k then (e.1, e.2 ++ [v]) :: es else e :: upsert k v es

/-- The `metric_values` mapping of `MetricAggregator.aggregate`: for every
metric key in first-seen order, the numeric values collected across the
accumulated records. -/
def metricValues (st : AggState) : List (Str × List ℚ) :=
  (flatNums st).foldl (fun acc kv => upsert kv.1 kv.2 acc) []

/-- The numeric values collected for one key directly, in collection order. -/
def collectNums (k : Str) (st : AggState) : List ℚ :=
  (flatNums st).filterMap (fun kv => if kv.1 = k then some kv.2 else none)

/-- Python `statistics.mean` on rationals. -/
def meanQ (l : List ℚ) : ℚ := l.sum / l.length

/-- Sample variance (the square of Python `statistics.stdev`). -/
def svarQ (l : List ℚ) : ℚ :=
  ((l.map (fun x => (x - meanQ l) ^ 2)).sum) / ((l.length : ℚ) - 1)

/-- Python `min` on a list of rationals (`0` on the empty list, which the
aggregation never passes). -/
def minimumQ : List ℚ → ℚ
  | [] => 0
  | x :: xs => xs.foldl min x

/-- Python `max` on a list of rationals (`0` on the empty list, which the
aggregation never passes). -/
def maximumQ : List ℚ → ℚ
  | [] => 0
  | x :: xs => xs.foldl max x

/-- Python `statistics.median`: middle element of the sorted values, or the
average of the two middle elements for an even count. -/
def medianQ (l : List ℚ) : ℚ :=
  let s := sortQ l
  let n := s.length
  if n % 2 = 1 then s.getD (n / 2) 0
  else (s.getD (n / 2 - 1) 0 + s.getD (n / 2) 0) / 2

/-- Key suffix for the mean entry. -/
def meanSuffix : Str := "_mean".data

/-- Key suffix for the standard-deviation entry. -/
def stdSuffix : Str := "_std".data

/-- Key suffix for the minimum entry. -/
def minSuffix : Str := "_min".data

/-- Key suffix for the maximum entry. -/
def maxSuffix : Str := "_max".data

/-- Key suffix for the median entry. -/
def medianSuffix : Str := "_median".data

/-- The record-count key added by `aggregate`. -/
def numFilesKey : Str := "num_files".data

/-- The five statistics entries emitted for one metric key, in emission
order; the standard deviation is `statistics.stdev` when more than one
sample is present and the literal `0.0` otherwise, with the square root
abstracted as a parameter (the only fact the specification states about
it is the fewer-than-two-samples case, which takes the literal branch). -/
def statEntries (sqrt : ℚ → ℚ) (k : Str) (vs : List ℚ) : List (Str × ℚ) :=
  [(k ++ meanSuffix, meanQ vs),
   (k ++ stdSuffix, if 1 < vs.length then sqrt (svarQ vs) else 0),
   (k ++ minSuffix, minimumQ vs),
   (k ++ maxSuffix, maximumQ vs),
   (k ++ medianSuffix, medianQ vs)]

/-- `MetricAggregator.aggregate`: the empty dictionary when nothing was
added, otherwise the five statistics per collected metric key followed by
the `num_files` count. -/
def aggregate (sqrt : ℚ → ℚ) (st : AggState) : List (Str × ℚ) :=
  if st.isEmpty then []
  else
    ((metricValues st).foldr (fun kv acc => statEntries sqrt kv.1 kv.2 ++ acc) []) ++
      [(numFilesKey, (st.length : ℚ))]

/-- `MetricAggregator.get_per_file_metrics`: the accumulated records. -/
def get_per_file_metrics (st : AggState) : List AggItem := st

/-- `MetricAggregator.aggregate` as a state-passing call: the method only
reads `self.metrics` (its one state access in the code), so the state
component is returned unchanged. -/
def aggregateCall (sqrt : ℚ → ℚ) (st : AggState) : List (Str × ℚ) × AggState :=
  (aggregate sqrt st, st)

/-- `MetricAggregator.get_per_file_metrics` as a state-passing call: the
method only reads `self.metrics`, so the state component is returned
unchanged. -/
def getPerFileCall (st : AggState) : List AggItem × AggState :=
  (get_per_file_metrics st, st)

/-- Dictionary lookup in the aggregate result. -/
def lookupQ (k : Str) : List (Str × ℚ) → Option ℚ
  | [] => none
  | e :: es => if e.1 = k then some e.2 else lookupQ k es

lemma sum_map_add {α : Type} (l : List α) (f g : α → ℚ) :
    (l.map (fun x => f x + g x)).sum = (l.map f).sum + (l.map g).sum := by
  induction l with
  | nil => simp
  | cons x xs ih => simp [ih]; ring

lemma sum_map_swap {α β : Type} (xs : List α) (ys : List β) (f : α → β → ℚ) :
    (xs.map (fun x => (ys.map (f x)).sum)).sum =
      (ys.map (fun y => (xs.map (fun x => f x y)).sum)).sum := by
  induction xs with
  | nil => simp
  | cons x xs ih =>
    simp only [List.map_cons, List.sum_cons, ih]
    rw [← sum_map_add]

lemma sum_ite_mem {α : Type} (l : List α) (p : α → Prop) [DecidablePred p] (c : ℚ) :
    (l.map (fun x => if p x then c else 0)).sum =
      c * ((l.filter (fun x => decide (p x))).length : ℚ) := by
  induction l with
  | nil => simp
  | cons x xs ih =>
    by_cases h : p x <;> simp [h, ih] <;> ring

lemma self_le_foldl_max (l : List ℚ) (a : ℚ) : a ≤ l.foldl max a := by
  induction l generalizing a with
  | nil => simp
  | cons y ys ih => exact le_trans (le_max_left a y) (ih (max a y))

lemma le_foldl_max (l : List ℚ) (x : ℚ) : x ∈ l → ∀ a, x ≤ l.foldl max a := by
  induction l with
  | nil => intro hx; cases hx
  | cons y ys ih =>
    intro hx a
    simp only [List.foldl_cons]
    rcases List.mem_cons.mp hx with rfl | h
    · exact le_trans (le_max_right a x) (self_le_foldl_max ys (max a x))
    · exact ih h (max a y)

lemma foldl_max_le {l : List ℚ} {b : ℚ} (a : ℚ) (ha : a ≤ b) (h : ∀ x ∈ l, x ≤ b) :
    l.foldl max a ≤ b := by
  induction l generalizing a with
  | nil => exact ha
  | cons y ys ih =>
    exact ih (max a y) (max_le ha (h y (by simp))) (fun x hx => h x (by simp [hx]))

lemma mem_dedupL {x : Str} {l : List Str} : x ∈ dedupL l ↔ x ∈ l := by
  induction l with
  | nil => simp [dedupL]
  | cons y ys ih =>
    by_cases h : y ∈ ys
    · simp only [dedupL, if_pos h, ih, List.mem_cons]
      constructor
      · exact Or.inr
      · rintro (rfl | hx)
        · exact h
        · exact hx
    · simp [dedupL, if_neg h, ih]

lemma nodup_dedupL (l : List Str) : (dedupL l).Nodup := by
  induction l with
  | nil => simp [dedupL]
  | cons y ys ih =>
    by_cases h : y ∈ ys
    · simpa [dedupL, if_pos h] using ih
    · simp only [dedupL, if_neg h]
      exact List.nodup_cons.mpr ⟨fun hy => h (mem_dedupL.mp hy), ih⟩

lemma dedupL_eq_nil {l : List Str} : dedupL l = [] ↔ l = [] := by
  induction l with
  | nil => simp [dedupL]
  | cons y ys ih =>
    by_cases h : y ∈ ys
    · simp only [dedupL, if_pos h, ih]
      constructor
      · intro he; exact absurd (he ▸ h) (List.not_mem_nil y)
      · intro he; cases he
    · simp [dedupL, if_neg h]

lemma dedupL_map_inj {σ : Str → Str} (hσ : Function.Injective σ) (l : List Str) :
    dedupL (l.map σ) = (dedupL l).map σ := by
  induction l with
  | nil => simp [dedupL]
  | cons y ys ih =>
    by_cases h : y ∈ ys
    · have h2 : σ y ∈ ys.map σ := List.mem_map_of_mem σ h
      simp only [List.map_cons, dedupL, if_pos h, if_pos h2, ih]
    · have h2 : σ y ∉ ys.map σ := by
        intro hc
        rcases List.mem_map.mp hc with ⟨z, hz, he⟩
        exact h (hσ he ▸ hz)
      simp only [List.map_cons, dedupL, if_neg h, if_neg h2, ih]

lemma foldr_append_eq_flatMap {α β : Type} (l : List α) (f : α → List β) :
    l.foldr (fun a acc => f a ++ acc) [] = l.flatMap f := by
  induction l with
  | nil => simp
  | cons x xs ih => simp [ih]

lemma matchings_cons (h : Str) (hs rs : List Str) :
    matchings (h :: hs) rs =
      matchings hs rs ++
        rs.flatMap (fun r => (matchings hs (rs.erase r)).map (fun m => (h, r) :: m)) := by
  simp [matchings, foldr_append_eq_flatMap]

lemma nil_mem_matchings (hl rl : List Str) : [] ∈ matchings hl rl := by
  induction hl generalizing rl with
  | nil => simp [matchings]
  | cons h hs ih => rw [matchings_cons]; exact List.mem_append_left _ (ih rl)

lemma matchings_nil_right (hl : List Str) : matchings hl [] = [[]] := by
  induction hl with
  | nil => rfl
  | cons h hs ih => rw [matchings_cons]; simp [ih]

lemma mem_matchings_pairs {hl rl : List Str} {m : List (Str × Str)}
    (hm : m ∈ matchings hl rl) : ∀ p ∈ m, p.1 ∈ hl ∧ p.2 ∈ rl := by
  induction hl generalizing rl m with
  | nil =>
    simp only [matchings, List.mem_singleton] at hm
    subst hm; simp
  | cons h hs ih =>
    rw [matchings_cons] at hm
    rcases List.mem_append.mp hm with h1 | h2
    · intro p hp
      obtain ⟨hp1, hp2⟩ := ih h1 p hp
      exact ⟨List.mem_cons_of_mem _ hp1, hp2⟩
    · rcases List.mem_flatMap.mp h2 with ⟨r, hr, hmem⟩
      rcases List.mem_map.mp hmem with ⟨m', hm', rfl⟩
      intro p hp
      rcases List.mem_cons.mp hp with rfl | hp'
      · exact ⟨List.mem_cons_self h hs, hr⟩
      · obtain ⟨hp1, hp2⟩ := ih hm' p hp'
        exact ⟨List.mem_cons_of_mem _ hp1, List.erase_subset _ _ hp2⟩

lemma matchings_fst_nodup {hl rl : List Str} {m : List (Str × Str)}
    (hnd : hl.Nodup) (hm : m ∈ matchings hl rl) : (m.map Prod.fst).Nodup := by
  induction hl generalizing rl m with
  | nil =>
    simp only [matchings, List.mem_singleton] at hm
    subst hm; simp
  | cons h hs ih =>
    rw [matchings_cons] at hm
    rcases List.mem_append.mp hm with h1 | h2
    · exact ih (List.nodup_cons.mp hnd).2 h1
    · rcases List.mem_flatMap.mp h2 with ⟨r, hr, hmem⟩
      rcases List.mem_map.mp hmem with ⟨m', hm', rfl⟩
      simp only [List.map_cons]
      refine List.nodup_cons.mpr ⟨?_, ih (List.nodup_cons.mp hnd).2 hm'⟩
      intro hc
      rcases List.mem_map.mp hc with ⟨p, hp, hpe⟩
      have hp1 := (mem_matchings_pairs hm' p hp).1
      exact (List.nodup_cons.mp hnd).1 (hpe ▸ hp1)

lemma matchings_snd_nodup {hl rl : List Str} {m : List (Str × Str)}
    (hnd : rl.Nodup) (hm : m ∈ matchings hl rl) : (m.map Prod.snd).Nodup := by
  induction hl generalizing rl m with
  | nil =>
    simp only [matchings, List.mem_singleton] at hm
    subst hm; simp
  | cons h hs ih =>
    rw [matchings_cons] at hm
    rcases List.mem_append.mp hm with h1 | h2
    · exact ih hnd h1
    · rcases List.mem_flatMap.mp h2 with ⟨r, hr, hmem⟩
      rcases List.mem_map.mp hmem with ⟨m', hm', rfl⟩
      simp only [List.map_cons]
      refine List.nodup_cons.mpr ⟨?_, ih (hnd.erase r) hm'⟩
      intro hc
      rcases List.mem_map.mp hc with ⟨p, hp, hpe⟩
      have hp2 := (mem_matchings_pairs hm' p hp).2
      exact hnd.not_mem_erase (hpe ▸ hp2)

lemma diag_mem_matchings (l : List Str) : (l.map (fun a => (a, a))) ∈ matchings l l := by
  induction l with
  | nil => simp [matchings]
  | cons x xs ih =>
    rw [matchings_cons]
    refine List.mem_append_right _ ?_
    refine List.mem_flatMap.mpr ⟨x, List.mem_cons_self x xs, ?_⟩
    refine List.mem_map.mpr ⟨xs.map (fun a => (a, a)), ?_, rfl⟩
    rw [List.erase_cons_head]
    exact ih

lemma matchings_map_left (σ : Str → Str) (hl rl : List Str) :
    matchings (hl.map σ) rl =
      (matchings hl rl).map (List.map (fun p => (σ p.1, p.2))) := by
  induction hl generalizing rl with
  | nil => simp [matchings]
  | cons h hs ih =>
    simp only [List.map_cons]
    rw [matchings_cons, matchings_cons, List.map_append, ih]
    congr 1
    rw [List.map_flatMap]
    refine List.flatMap_congr (fun r hr => ?_)
    rw [ih, List.map_map, List.map_map]
    refine List.map_congr_left (fun m hm => ?_)
    simp

lemma map_erase_str {σ : Str → Str} (hσ : Function.Injective σ) (r : Str) (rl : List Str) :
    (rl.map σ).erase (σ r) = (rl.erase r).map σ := by
  induction rl with
  | nil => rfl
  | cons x xs ih =>
    by_cases h : x = r
    · subst h
      rw [List.map_cons, List.erase_cons_head, List.erase_cons_head]
    · have h2 : σ x ≠ σ r := fun he => h (hσ he)
      rw [List.map_cons, List.erase_cons_tail (by simpa using h2),
        List.erase_cons_tail (by simpa using h), List.map_cons, ih]

lemma matchings_map_right (σ : Str → Str) (hσ : Function.Injective σ) (hl rl : List Str) :
    matchings hl (rl.map σ) =
      (matchings hl rl).map (List.map (fun p => (p.1, σ p.2))) := by
  induction hl generalizing rl with
  | nil => simp [matchings]
  | cons h hs ih =>
    rw [matchings_cons, matchings_cons, List.map_append, ih]
    congr 1
    rw [List.map_flatMap, List.flatMap_map]
    refine List.flatMap_congr (fun r hr => ?_)
    rw [map_erase_str hσ, ih, List.map_map, List.map_map]
    refine List.map_congr_left (fun m hm => ?_)
    simp

/-- Shape invariant of the per-interval scoring data: every element comes
from a positive-length elementary interval with its two active-speaker
lists. -/
def GoodData (ref hyp : Timeline) (data : List (ℚ × List Str × List Str)) : Prop :=
  ∀ d ∈ data, ∃ a b : ℚ, a < b ∧ d = (b - a, activeAt ref a b, activeAt hyp a b)

lemma mem_elemIntervals {pts : List ℚ} {p : ℚ × ℚ} (hp : p ∈ elemIntervals pts) :
    p.1 < p.2 := by
  have h := List.mem_filter.mp hp
  simpa using h.2

lemma scoredData_good (ref hyp : Timeline) (c : ℚ) (sk : Bool) :
    GoodData ref hyp (scoredData ref hyp c sk) := by
  intro d hd
  rcases List.mem_map.mp hd with ⟨p, hp, rfl⟩
  exact ⟨p.1, p.2, mem_elemIntervals (List.mem_filter.mp hp).1, rfl⟩

lemma jerData_good (ref hyp : Timeline) : GoodData ref hyp (jerData ref hyp) := by
  intro d hd
  rcases List.mem_map.mp hd with ⟨p, hp, rfl⟩
  exact ⟨p.1, p.2, mem_elemIntervals hp, rfl⟩

lemma good_dur_nonneg {ref hyp : Timeline} {data : List (ℚ × List Str × List Str)}
    (hg : GoodData ref hyp data) : ∀ d ∈ data, 0 ≤ d.1 := by
  intro d hd
  rcases hg d hd with ⟨a, b, hab, rfl⟩
  simp only
  linarith

lemma activeAt_nodup (t : Timeline) (a b : ℚ) : (activeAt t a b).Nodup :=
  nodup_dedupL _

lemma activeAt_sub_labels {t : Timeline} {a b : ℚ} {x : Str}
    (hx : x ∈ activeAt t a b) : x ∈ labelsOf t := by
  rcases List.mem_filterMap.mp (mem_dedupL.mp hx) with ⟨s, hs, hsome⟩
  by_cases hc : s.start ≤ a ∧ b ≤ s.stop
  · rw [if_pos hc] at hsome
    apply mem_dedupL.mpr
    exact List.mem_map.mpr ⟨s, hs, (Option.some_inj.mp hsome)⟩
  · rw [if_neg hc] at hsome
    cases hsome

lemma labelsOf_nodup (t : Timeline) : (labelsOf t).Nodup := nodup_dedupL _

lemma good_ref_eq_hyp {t : Timeline} {data : List (ℚ × List Str × List Str)}
    (hg : GoodData t t data) : ∀ d ∈ data, d.2.1 = d.2.2 := by
  intro d hd
  rcases hg d hd with ⟨a, b, hab, rfl⟩
  rfl

lemma sum_dur_mul_nonneg {data : List (ℚ × List Str × List Str)}
    (h : ∀ d ∈ data, 0 ≤ d.1) (f : ℚ × List Str × List Str → ℕ) :
    0 ≤ (data.map (fun d => d.1 * (f d : ℚ))).sum := by
  apply List.sum_nonneg
  intro x hx
  rcases List.mem_map.mp hx with ⟨d, hd, rfl⟩
  exact mul_nonneg (h d hd) (by positivity)

lemma derTotal_nonneg {data : List (ℚ × List Str × List Str)}
    (h : ∀ d ∈ data, 0 ≤ d.1) : 0 ≤ derTotal data := by
  simpa [derTotal] using sum_dur_mul_nonneg h (fun d => d.2.1.length)

lemma derMiss_nonneg {data : List (ℚ × List Str × List Str)}
    (h : ∀ d ∈ data, 0 ≤ d.1) : 0 ≤ derMiss data := by
  simpa [derMiss] using sum_dur_mul_nonneg h (fun d => d.2.1.length - d.2.2.length)

lemma derFalseAlarm_nonneg {data : List (ℚ × List Str × List Str)}
    (h : ∀ d ∈ data, 0 ≤ d.1) : 0 ≤ derFalseAlarm data := by
  simpa [derFalseAlarm] using sum_dur_mul_nonneg h (fun d => d.2.2.length - d.2.1.length)

lemma derMinSum_nonneg {data : List (ℚ × List Str × List Str)}
    (h : ∀ d ∈ data, 0 ≤ d.1) : 0 ≤ derMinSum data := by
  simpa [derMinSum] using sum_dur_mul_nonneg h (fun d => min d.2.1.length d.2.2.length)

lemma pairSum_le (dur : ℚ) (hdur : 0 ≤ dur) (H R : List Str) (m : List (Str × Str))
    (hf : (m.map Prod.fst).Nodup) (hsn : (m.map Prod.snd).Nodup) :
    (m.map (fun p => if p.1 ∈ H ∧ p.2 ∈ R then dur else 0)).sum ≤
      dur * ((min H.length R.length : ℕ) : ℚ) := by
  induction m generalizing H R with
  | nil =>
    simp only [List.map_nil, List.sum_nil]
    exact mul_nonneg hdur (by positivity)
  | cons p m ih =>
    simp only [List.map_cons, List.sum_cons]
    simp only [List.map_cons] at hf hsn
    have hf2 := List.nodup_cons.mp hf
    have hs2 := List.nodup_cons.mp hsn
    by_cases hc : p.1 ∈ H ∧ p.2 ∈ R
    · rw [if_pos hc]
      have hcongr : ∀ q ∈ m,
          (if q.1 ∈ H ∧ q.2 ∈ R then dur else 0) =
            (if q.1 ∈ H.erase p.1 ∧ q.2 ∈ R.erase p.2 then dur else 0) := by
        intro q hq
        have hq1 : q.1 ≠ p.1 := by
          intro he
          exact hf2.1 (he ▸ List.mem_map_of_mem Prod.fst hq)
        have hq2 : q.2 ≠ p.2 := by
          intro he
          exact hs2.1 (he ▸ List.mem_map_of_mem Prod.snd hq)
        rw [if_congr (and_congr (List.mem_erase_of_ne hq1).symm
          (List.mem_erase_of_ne hq2).symm) rfl rfl]
      rw [List.map_congr_left hcongr]
      have hbound := ih (H.erase p.1) (R.erase p.2) hf2.2 hs2.2
      rw [List.length_erase_of_mem hc.1, List.length_erase_of_mem hc.2] at hbound
      have hH : 1 ≤ H.length := List.length_pos.mpr (List.ne_nil_of_mem hc.1)
      have hR : 1 ≤ R.length := List.length_pos.mpr (List.ne_nil_of_mem hc.2)
      have hmin : (min (H.length - 1) (R.length - 1) : ℕ) + 1 = min H.length R.length := by
        omega
      have hcast : ((min H.length R.length : ℕ) : ℚ) =
          ((min (H.length - 1) (R.length - 1) : ℕ) : ℚ) + 1 := by
        rw [← hmin]; push_cast; ring
      rw [hcast]
      linarith
    · rw [if_neg hc]
      have hbound := ih H R hf2.2 hs2.2
      linarith

lemma matchScore_le_derMinSum {ref hyp : Timeline} {data : List (ℚ × List Str × List Str)}
    (hg : GoodData ref hyp data) {m : List (Str × Str)}
    (hf : (m.map Prod.fst).Nodup) (hsn : (m.map Prod.snd).Nodup) :
    matchScore data m ≤ derMinSum data := by
  unfold matchScore overlapDur derMinSum
  rw [sum_map_swap]
  apply List.sum_le_sum
  intro d hd
  have hb := pairSum_le d.1 (good_dur_nonneg hg d hd) d.2.2 d.2.1 m hf hsn
  simpa [Nat.min_comm] using hb

lemma bestScore_le_derMinSum {ref hyp : Timeline} {data : List (ℚ × List Str × List Str)}
    (hg : GoodData ref hyp data) :
    bestScore data (labelsOf hyp) (labelsOf ref) ≤ derMinSum data := by
  unfold bestScore
  apply foldl_max_le
  · exact derMinSum_nonneg (good_dur_nonneg hg)
  · intro x hx
    rcases List.mem_map.mp hx with ⟨m, hm, rfl⟩
    exact matchScore_le_derMinSum hg
      (matchings_fst_nodup (labelsOf_nodup hyp) hm)
      (matchings_snd_nodup (labelsOf_nodup ref) hm)

lemma filter_mem_length {rl R : List Str} (h1 : rl.Nodup) (h2 : R.Nodup)
    (hsub : ∀ x ∈ R, x ∈ rl) :
    ((rl.filter (fun x => decide (x ∈ R))).length : ℕ) = R.length := by
  apply le_antisymm
  · refine ((h1.filter _).subperm ?_).length_le
    intro x hx
    have := List.mem_filter.mp hx
    exact of_decide_eq_true this.2
  · refine (h2.subperm ?_).length_le
    intro x hx
    exact List.mem_filter.mpr ⟨hsub x hx, decide_eq_true hx⟩

lemma matchScore_diag_sum (data : List (ℚ × List Str × List Str)) (rl : List Str) :
    matchScore data (rl.map (fun a => (a, a))) =
      (rl.map (fun l => overlapDur data l l)).sum := by
  induction rl with
  | nil => simp [matchScore]
  | cons x xs ih =>
    simp only [List.map_cons, List.sum_cons, matchScore] at ih ⊢
    rw [ih]

lemma matchScore_diag {t : Timeline} {data : List (ℚ × List Str × List Str)}
    (hg : GoodData t t data) :
    matchScore data ((labelsOf t).map (fun a => (a, a))) = derMinSum data := by
  rw [matchScore_diag_sum]
  unfold overlapDur derMinSum
  rw [sum_map_swap]
  refine congrArg List.sum (List.map_congr_left (fun d hd => ?_))
  have heq : d.2.1 = d.2.2 := good_ref_eq_hyp hg d hd
  have hcongr : ∀ l ∈ labelsOf t,
      (if l ∈ d.2.2 ∧ l ∈ d.2.1 then d.1 else 0) = (if l ∈ d.2.1 then d.1 else 0) := by
    intro l hl
    have hiff : (l ∈ d.2.2 ∧ l ∈ d.2.1) ↔ l ∈ d.2.1 := by
      rw [← heq]
      simp
    rw [if_congr hiff rfl rfl]
  rw [List.map_congr_left hcongr, sum_ite_mem]
  rcases hg d hd with ⟨a, b, hab, rfl⟩
  simp only
  rw [filter_mem_length (labelsOf_nodup t) (activeAt_nodup t a b)
    (fun x hx => activeAt_sub_labels hx), min_self]

lemma bestScore_identity {t : Timeline} {data : List (ℚ × List Str × List Str)}
    (hg : GoodData t t data) :
    bestScore data (labelsOf t) (labelsOf t) = derMinSum data := by
  apply le_antisymm
  · exact bestScore_le_derMinSum hg
  · have hmem : matchScore data ((labelsOf t).map (fun a => (a, a))) ∈
        (matchings (labelsOf t) (labelsOf t)).map (matchScore data) :=
      List.mem_map_of_mem _ (diag_mem_matchings _)
    calc derMinSum data = matchScore data ((labelsOf t).map (fun a => (a, a))) :=
        (matchScore_diag hg).symm
      _ ≤ bestScore data (labelsOf t) (labelsOf t) := le_foldl_max _ _ hmem 0

lemma derMiss_eq_zero {data : List (ℚ × List Str × List Str)}
    (heq : ∀ d ∈ data, d.2.1 = d.2.2) : derMiss data = 0 := by
  apply List.sum_eq_zero
  intro x hx
  rcases List.mem_map.mp hx with ⟨d, hd, rfl⟩
  rw [heq d hd]
  simp

lemma derFalseAlarm_eq_zero {data : List (ℚ × List Str × List Str)}
    (heq : ∀ d ∈ data, d.2.1 = d.2.2) : derFalseAlarm data = 0 := by
  apply List.sum_eq_zero
  intro x hx
  rcases List.mem_map.mp hx with ⟨d, hd, rfl⟩
  rw [heq d hd]
  simp

lemma der_self (T : Timeline) (c : ℚ) (sk : Bool) : (compute_der T T c sk).der = 0 := by
  have hg := scoredData_good T T c sk
  have hm : derMiss (scoredData T T c sk) = 0 := derMiss_eq_zero (good_ref_eq_hyp hg)
  have hf : derFalseAlarm (scoredData T T c sk) = 0 :=
    derFalseAlarm_eq_zero (good_ref_eq_hyp hg)
  have hb := bestScore_identity hg
  by_cases ht : derTotal (scoredData T T c sk) = 0
  · simp [compute_der, ht]
  · simp [compute_der, ht, hm, hf, hb]

lemma interDur_self {data : List (ℚ × List Str × List Str)}
    (heq : ∀ d ∈ data, d.2.1 = d.2.2) (r : Str) : interDur data r r = unionDur data r r := by
  unfold interDur unionDur
  refine congrArg List.sum (List.map_congr_left (fun d hd => ?_))
  have hiff : (r ∈ d.2.1 ∧ r ∈ d.2.2) ↔ (r ∈ d.2.1 ∨ r ∈ d.2.2) := by
    rw [← heq d hd]
    simp
  rw [if_congr hiff rfl rfl]

lemma jaccard_self {data : List (ℚ × List Str × List Str)}
    (heq : ∀ d ∈ data, d.2.1 = d.2.2) (r : Str) : jaccard data r r = 1 := by
  unfold jaccard
  by_cases hu : unionDur data r r = 0
  · rw [if_pos hu]
  · rw [if_neg hu, interDur_self heq, div_self hu]

lemma unionDur_nonneg {ref hyp : Timeline} {data : List (ℚ × List Str × List Str)}
    (hg : GoodData ref hyp data) (r h : Str) : 0 ≤ unionDur data r h := by
  apply List.sum_nonneg
  intro x hx
  rcases List.mem_map.mp hx with ⟨d, hd, rfl⟩
  by_cases hc : r ∈ d.2.1 ∨ h ∈ d.2.2
  · rw [if_pos hc]; exact good_dur_nonneg hg d hd
  · rw [if_neg hc]

lemma interDur_le_unionDur {ref hyp : Timeline} {data : List (ℚ × List Str × List Str)}
    (hg : GoodData ref hyp data) (r h : Str) : interDur data r h ≤ unionDur data r h := by
  apply List.sum_le_sum
  intro d hd
  by_cases hc : r ∈ d.2.1 ∧ h ∈ d.2.2
  · rw [if_pos hc, if_pos (Or.inl hc.1)]
  · rw [if_neg hc]
    by_cases hc2 : r ∈ d.2.1 ∨ h ∈ d.2.2
    · rw [if_pos hc2]; exact good_dur_nonneg hg d hd
    · rw [if_neg hc2]

lemma jaccard_le_one {ref hyp : Timeline} {data : List (ℚ × List Str × List Str)}
    (hg : GoodData ref hyp data) (r h : Str) : jaccard data r h ≤ 1 := by
  unfold jaccard
  by_cases hu : unionDur data r h = 0
  · rw [if_pos hu]
  · rw [if_neg hu]
    have hpos : 0 < unionDur data r h := lt_of_le_of_ne (unionDur_nonneg hg r h) (Ne.symm hu)
    exact (div_le_one hpos).mpr (interDur_le_unionDur hg r h)

lemma matchings_length_le_left {hl rl : List Str} {m : List (Str × Str)}
    (hnd : hl.Nodup) (hm : m ∈ matchings hl rl) : m.length ≤ hl.length := by
  have h1 : (m.map Prod.fst).Nodup := matchings_fst_nodup hnd hm
  have h2 : (m.map Prod.fst) ⊆ hl := by
    intro x hx
    rcases List.mem_map.mp hx with ⟨p, hp, rfl⟩
    exact (mem_matchings_pairs hm p hp).1
  have := (h1.subperm h2).length_le
  simpa using this

lemma sum_map_one {α : Type} (l : List α) : (l.map (fun _ => (1 : ℚ))).sum = l.length := by
  induction l with
  | nil => simp
  | cons x xs ih => simp [ih, add_comm]

lemma jerScore_le_length {ref hyp : Timeline} {data : List (ℚ × List Str × List Str)}
    (hg : GoodData ref hyp data) (m : List (Str × Str)) :
    jerScore data m ≤ m.length := by
  unfold jerScore
  calc (m.map (fun p => jaccard data p.1 p.2)).sum ≤ (m.map (fun _ => (1 : ℚ))).sum :=
      List.sum_le_sum (fun p _ => jaccard_le_one hg p.1 p.2)
    _ = m.length := sum_map_one m

lemma jerScore_diag {data : List (ℚ × List Str × List Str)}
    (heq : ∀ d ∈ data, d.2.1 = d.2.2) (rl : List Str) :
    jerScore data (rl.map (fun a => (a, a))) = rl.length := by
  induction rl with
  | nil => simp [jerScore]
  | cons x xs ih =>
    simp only [List.map_cons, List.sum_cons, jerScore] at ih ⊢
    rw [ih, jaccard_self heq x]
    push_cast [List.length_cons]
    ring

lemma bestJerScore_identity (T : Timeline) :
    bestJerScore (jerData T T) (labelsOf T) (labelsOf T) = (labelsOf T).length := by
  have hg := jerData_good T T
  apply le_antisymm
  · apply foldl_max_le
    · positivity
    · intro x hx
      rcases List.mem_map.mp hx with ⟨m, hm, rfl⟩
      calc jerScore (jerData T T) m ≤ m.length := jerScore_le_length hg m
        _ ≤ ((labelsOf T).length : ℚ) := by
          exact_mod_cast matchings_length_le_left (labelsOf_nodup T) hm
  · have hmem : jerScore (jerData T T) ((labelsOf T).map (fun a => (a, a))) ∈
        (matchings (labelsOf T) (labelsOf T)).map (jerScore (jerData T T)) :=
      List.mem_map_of_mem _ (diag_mem_matchings _)
    calc ((labelsOf T).length : ℚ) =
        jerScore (jerData T T) ((labelsOf T).map (fun a => (a, a))) :=
        (jerScore_diag (good_ref_eq_hyp hg) _).symm
      _ ≤ _ := le_foldl_max _ _ hmem 0

lemma labelsOf_ne_nil {T : Timeline} (hT : T ≠ []) : labelsOf T ≠ [] := by
  intro h
  have := dedupL_eq_nil.mp h
  exact hT (List.map_eq_nil_iff.mp this)

lemma compute_jer_self (T : Timeline) (hT : T ≠ []) : compute_jer T T = 0 := by
  have hn : (labelsOf T).length ≠ 0 := by
    simpa [List.length_eq_zero] using labelsOf_ne_nil hT
  unfold compute_jer
  simp only [max_self, if_neg hn, bestJerScore_identity T]
  rw [div_self (by exact_mod_cast hn)]
  ring

/-- C1: for every non-empty reference timeline, scoring it against an
identical copy of itself (same segments, same labels) with the default
collar (`0.25`) and default `skip_overlap` (`false`) yields `DER = 0.0`
from `compute_der` and `JER = 0.0` from `compute_jer`. -/
theorem C1_identity_scoring (T : Timeline) (hT : T ≠ []) :
    (compute_der T T (1/4) false).der = 0 ∧ compute_jer T T = 0 :=
  ⟨der_self T (1/4) false, compute_jer_self T hT⟩

/-- Witness for C1 at the one-segment timeline `(0, 1, "A")`. -/
theorem C1_identity_scoring_witness :
    ([⟨0, 1, "A".data⟩] : Timeline) ≠ [] ∧
      ((compute_der [⟨0, 1, "A".data⟩] [⟨0, 1, "A".data⟩] (1/4) false).der = 0 ∧
        compute_jer [⟨0, 1, "A".data⟩] [⟨0, 1, "A".data⟩] = 0) :=
  ⟨by simp, C1_identity_scoring [⟨0, 1, "A".data⟩] (by simp)⟩

lemma good_hyp_nil {R : Timeline} {c : ℚ} {sk : Bool} :
    ∀ d ∈ scoredData R [] c sk, d.2.2 = [] := by
  intro d hd
  rcases scoredData_good R [] c sk d hd with ⟨a, b, hab, rfl⟩
  rfl

lemma derMiss_empty_hyp {data : List (ℚ × List Str × List Str)}
    (h2 : ∀ d ∈ data, d.2.2 = []) : derMiss data = derTotal data := by
  refine congrArg List.sum (List.map_congr_left (fun d hd => ?_))
  rw [h2 d hd]
  simp

lemma derFalseAlarm_empty_hyp {data : List (ℚ × List Str × List Str)}
    (h2 : ∀ d ∈ data, d.2.2 = []) : derFalseAlarm data = 0 := by
  apply List.sum_eq_zero
  intro x hx
  rcases List.mem_map.mp hx with ⟨d, hd, rfl⟩
  rw [h2 d hd]
  simp

lemma derMinSum_empty_hyp {data : List (ℚ × List Str × List Str)}
    (h2 : ∀ d ∈ data, d.2.2 = []) : derMinSum data = 0 := by
  apply List.sum_eq_zero
  intro x hx
  rcases List.mem_map.mp hx with ⟨d, hd, rfl⟩
  rw [h2 d hd]
  simp

lemma bestScore_nil_left (data : List (ℚ × List Str × List Str)) (rl : List Str) :
    bestScore data [] rl = 0 := by
  simp [bestScore, matchings, matchScore]

lemma bestJerScore_nil_right (data : List (ℚ × List Str × List Str)) (rl : List Str) :
    bestJerScore data rl [] = 0 := by
  simp [bestJerScore, matchings_nil_right, jerScore]

lemma compute_jer_empty_hyp (R : Timeline) (hR : R ≠ []) : compute_jer R [] = 1 := by
  have hn : (labelsOf R).length ≠ 0 := by
    simpa [List.length_eq_zero] using labelsOf_ne_nil hR
  have hnil : labelsOf ([] : Timeline) = [] := rfl
  unfold compute_jer
  simp only [hnil, List.length_nil, Nat.max_zero, if_neg hn, bestJerScore_nil_right]
  simp

lemma compute_der_total (ref hyp : Timeline) (c : ℚ) (sk : Bool) :
    (compute_der ref hyp c sk).total = derTotal (scoredData ref hyp c sk) := rfl

lemma compute_der_miss (ref hyp : Timeline) (c : ℚ) (sk : Bool) :
    (compute_der ref hyp c sk).miss = derMiss (scoredData ref hyp c sk) := rfl

lemma compute_der_falseAlarm (ref hyp : Timeline) (c : ℚ) (sk : Bool) :
    (compute_der ref hyp c sk).false_alarm = derFalseAlarm (scoredData ref hyp c sk) := rfl

lemma compute_der_confusion (ref hyp : Timeline) (c : ℚ) (sk : Bool) :
    (compute_der ref hyp c sk).confusion =
      derMinSum (scoredData ref hyp c sk) -
        bestScore (scoredData ref hyp c sk) (labelsOf hyp) (labelsOf ref) := rfl

lemma compute_der_der (ref hyp : Timeline) (c : ℚ) (sk : Bool) :
    (compute_der ref hyp c sk).der =
      (if derTotal (scoredData ref hyp c sk) = 0 then 0
       else (derMiss (scoredData ref hyp c sk) + derFalseAlarm (scoredData ref hyp c sk) +
          (derMinSum (scoredData ref hyp c sk) -
            bestScore (scoredData ref hyp c sk) (labelsOf hyp) (labelsOf ref))) /
          derTotal (scoredData ref hyp c sk)) := rfl

lemma compute_der_undefined (ref hyp : Timeline) (c : ℚ) (sk : Bool) :
    (compute_der ref hyp c sk).undefined = decide (derTotal (scoredData ref hyp c sk) = 0) :=
  rfl

/-- C2 counterexample: the reference timeline with the single segment
`(0, 0.1, "A")` is non-empty, yet scoring it against the empty hypothesis
with the default collar `0.25` does not give `DER = 1.0` — the whole
reference lies inside the collar windows, so the scored total is `0` and
the reported rate is the undefined-case `0`, not `1`. -/
theorem C2_total_miss_counterexample :
    ([⟨0, 1/10, "A".data⟩] : Timeline) ≠ [] ∧
      ¬ ((compute_der [⟨0, 1/10, "A".data⟩] [] (1/4) false).der = 1) := by
  constructor
  · simp
  · have h0 : derTotal (scoredData [⟨0, 1/10, "A".data⟩] [] (1/4) false) = 0 := by
      norm_num [derTotal, scoredData, elemIntervals, breakpoints, segBounds, sortQ,
        insertSorted, inCollar, activeAt, dedupL, List.filterMap_cons, List.filterMap_nil]
    rw [compute_der_der, if_pos h0]
    norm_num

/-- C2 (amended): for every non-empty reference timeline whose scored
total is non-zero (the collar does not swallow all reference speech),
scoring against the empty hypothesis yields `confusion = 0`,
`false_alarm = 0`, `miss = total`, hence `DER = 1.0`, and `JER = 1.0`. -/
theorem C2_total_miss (R : Timeline) (hR : R ≠ [])
    (htot : (compute_der R [] (1/4) false).total ≠ 0) :
    (compute_der R [] (1/4) false).confusion = 0 ∧
      (compute_der R [] (1/4) false).false_alarm = 0 ∧
      (compute_der R [] (1/4) false).miss = (compute_der R [] (1/4) false).total ∧
      (compute_der R [] (1/4) false).der = 1 ∧
      compute_jer R [] = 1 := by
  have h2 : ∀ d ∈ scoredData R [] (1/4) false, d.2.2 = [] := good_hyp_nil
  have hnil : labelsOf ([] : Timeline) = [] := rfl
  have htot' : derTotal (scoredData R [] (1/4) false) ≠ 0 := by
    rw [compute_der_total] at htot
    exact htot
  refine ⟨?_, ?_, ?_, ?_, compute_jer_empty_hyp R hR⟩
  · rw [compute_der_confusion, derMinSum_empty_hyp h2, hnil, bestScore_nil_left]
    ring
  · rw [compute_der_falseAlarm]
    exact derFalseAlarm_empty_hyp h2
  · rw [compute_der_miss, compute_der_total]
    exact derMiss_empty_hyp h2
  · rw [compute_der_der, if_neg htot', derMiss_empty_hyp h2, derFalseAlarm_empty_hyp h2,
      derMinSum_empty_hyp h2, hnil, bestScore_nil_left]
    field_simp

/-- Witness for the amended C2 at the one-segment reference `(0, 1, "A")`,
whose scored total under the default collar is `0.5`. -/
theorem C2_total_miss_witness :
    ([⟨0, 1, "A".data⟩] : Timeline) ≠ [] ∧
      (compute_der [⟨0, 1, "A".data⟩] [] (1/4) false).total ≠ 0 ∧
      ((compute_der [⟨0, 1, "A".data⟩] [] (1/4) false).confusion = 0 ∧
        (compute_der [⟨0, 1, "A".data⟩] [] (1/4) false).false_alarm = 0 ∧
        (compute_der [⟨0, 1, "A".data⟩] [] (1/4) false).miss =
          (compute_der [⟨0, 1, "A".data⟩] [] (1/4) false).total ∧
        (compute_der [⟨0, 1, "A".data⟩] [] (1/4) false).der = 1 ∧
        compute_jer [⟨0, 1, "A".data⟩] [] = 1) := by
  have htot : (compute_der [⟨0, 1, "A".data⟩] [] (1/4) false).total ≠ 0 := by
    rw [compute_der_total]
    norm_num [derTotal, scoredData, elemIntervals, breakpoints, segBounds, sortQ,
      insertSorted, inCollar, activeAt, dedupL, List.filterMap_cons, List.filterMap_nil]
  exact ⟨by simp, htot, C2_total_miss [⟨0, 1, "A".data⟩] (by simp) htot⟩

lemma segBounds_relabel (σ : Str → Str) (t : Timeline) :
    segBounds (relabel σ t) = segBounds t := by
  induction t with
  | nil => rfl
  | cons s ts ih =>
    simp only [relabel, List.map_cons, segBounds, List.foldr_cons] at ih ⊢
    rw [ih]

lemma breakpoints_relabel_hyp (σ : Str → Str) (ref hyp : Timeline) (c : ℚ) :
    breakpoints ref (relabel σ hyp) c = breakpoints ref hyp c := by
  unfold breakpoints
  rw [segBounds_relabel]

lemma filterMap_relabel (σ : Str → Str) (t : Timeline) (a b : ℚ) :
    (relabel σ t).filterMap
        (fun s => if s.start ≤ a ∧ b ≤ s.stop then some s.spk else none) =
      (t.filterMap (fun s => if s.start ≤ a ∧ b ≤ s.stop then some s.spk else none)).map σ := by
  induction t with
  | nil => rfl
  | cons s ts ih =>
    simp only [relabel, List.map_cons, List.filterMap_cons] at ih ⊢
    by_cases hc : s.start ≤ a ∧ b ≤ s.stop
    · simp only [if_pos hc, ih, List.map_cons]
    · simp only [if_neg hc, ih]

lemma activeAt_relabel {σ : Str → Str} (hσ : Function.Injective σ) (t : Timeline) (a b : ℚ) :
    activeAt (relabel σ t) a b = (activeAt t a b).map σ := by
  unfold activeAt
  rw [filterMap_relabel, dedupL_map_inj hσ]

lemma labelsOf_relabel {σ : Str → Str} (hσ : Function.Injective σ) (t : Timeline) :
    labelsOf (relabel σ t) = (labelsOf t).map σ := by
  unfold labelsOf relabel
  rw [List.map_map]
  rw [show ((fun s : LSeg => s.spk) ∘ fun s : LSeg =>
    (⟨s.start, s.stop, σ s.spk⟩ : LSeg)) = σ ∘ (fun s : LSeg => s.spk) from rfl]
  rw [← List.map_map, dedupL_map_inj hσ]

lemma scoredData_relabel_hyp {σ : Str → Str} (hσ : Function.Injective σ)
    (ref hyp : Timeline) (c : ℚ) (sk : Bool) :
    scoredData ref (relabel σ hyp) c sk =
      (scoredData ref hyp c sk).map (fun d => (d.1, d.2.1, d.2.2.map σ)) := by
  unfold scoredData
  rw [breakpoints_relabel_hyp, List.map_map]
  refine List.map_congr_left (fun p hp => ?_)
  simp [activeAt_relabel hσ]

lemma jerData_relabel_hyp {σ : Str → Str} (hσ : Function.Injective σ) (ref hyp : Timeline) :
    jerData ref (relabel σ hyp) =
      (jerData ref hyp).map (fun d => (d.1, d.2.1, d.2.2.map σ)) := by
  unfold jerData
  rw [segBounds_relabel, List.map_map]
  refine List.map_congr_left (fun p hp => ?_)
  simp [activeAt_relabel hσ]

lemma derTotal_relabel (σ : Str → Str) (data : List (ℚ × List Str × List Str)) :
    derTotal (data.map (fun d => (d.1, d.2.1, d.2.2.map σ))) = derTotal data := by
  unfold derTotal
  rw [List.map_map]
  exact congrArg List.sum (List.map_congr_left (fun d _ => by simp))

lemma derMiss_relabel (σ : Str → Str) (data : List (ℚ × List Str × List Str)) :
    derMiss (data.map (fun d => (d.1, d.2.1, d.2.2.map σ))) = derMiss data := by
  unfold derMiss
  rw [List.map_map]
  exact congrArg List.sum (List.map_congr_left (fun d _ => by simp))

lemma derFalseAlarm_relabel (σ : Str → Str) (data : List (ℚ × List Str × List Str)) :
    derFalseAlarm (data.map (fun d => (d.1, d.2.1, d.2.2.map σ))) = derFalseAlarm data := by
  unfold derFalseAlarm
  rw [List.map_map]
  exact congrArg List.sum (List.map_congr_left (fun d _ => by simp))

lemma derMinSum_relabel (σ : Str → Str) (data : List (ℚ × List Str × List Str)) :
    derMinSum (data.map (fun d => (d.1, d.2.1, d.2.2.map σ))) = derMinSum data := by
  unfold derMinSum
  rw [List.map_map]
  exact congrArg List.sum (List.map_congr_left (fun d _ => by simp))

lemma overlapDur_relabel {σ : Str → Str} (hσ : Function.Injective σ)
    (data : List (ℚ × List Str × List Str)) (h r : Str) :
    overlapDur (data.map (fun d => (d.1, d.2.1, d.2.2.map σ))) (σ h) r =
      overlapDur data h r := by
  unfold overlapDur
  rw [List.map_map]
  refine congrArg List.sum (List.map_congr_left (fun d hd => ?_))
  simp [List.mem_map_of_injective hσ]

lemma matchScore_relabel {σ : Str → Str} (hσ : Function.Injective σ)
    (data : List (ℚ × List Str × List Str)) (m : List (Str × Str)) :
    matchScore (data.map (fun d => (d.1, d.2.1, d.2.2.map σ)))
        (m.map (fun p => (σ p.1, p.2))) = matchScore data m := by
  unfold matchScore
  rw [List.map_map]
  refine congrArg List.sum (List.map_congr_left (fun p hp => ?_))
  exact overlapDur_relabel hσ data p.1 p.2

lemma bestScore_relabel {σ : Str → Str} (hσ : Function.Injective σ)
    (data : List (ℚ × List Str × List Str)) (hl rl : List Str) :
    bestScore (data.map (fun d => (d.1, d.2.1, d.2.2.map σ))) (hl.map σ) rl =
      bestScore data hl rl := by
  unfold bestScore
  rw [matchings_map_left, List.map_map]
  exact congrArg (List.foldl max 0)
    (List.map_congr_left (fun m hm => matchScore_relabel hσ data m))

lemma interDur_relabel {σ : Str → Str} (hσ : Function.Injective σ)
    (data : List (ℚ × List Str × List Str)) (r h : Str) :
    interDur (data.map (fun d => (d.1, d.2.1, d.2.2.map σ))) r (σ h) = interDur data r h := by
  unfold interDur
  rw [List.map_map]
  refine congrArg List.sum (List.map_congr_left (fun d hd => ?_))
  simp [List.mem_map_of_injective hσ]

lemma unionDur_relabel {σ : Str → Str} (hσ : Function.Injective σ)
    (data : List (ℚ × List Str × List Str)) (r h : Str) :
    unionDur (data.map (fun d => (d.1, d.2.1, d.2.2.map σ))) r (σ h) = unionDur data r h := by
  unfold unionDur
  rw [List.map_map]
  refine congrArg List.sum (List.map_congr_left (fun d hd => ?_))
  simp [List.mem_map_of_injective hσ]

lemma jaccard_relabel {σ : Str → Str} (hσ : Function.Injective σ)
    (data : List (ℚ × List Str × List Str)) (r h : Str) :
    jaccard (data.map (fun d => (d.1, d.2.1, d.2.2.map σ))) r (σ h) = jaccard data r h := by
  unfold jaccard
  rw [interDur_relabel hσ, unionDur_relabel hσ]

lemma jerScore_relabel {σ : Str → Str} (hσ : Function.Injective σ)
    (data : List (ℚ × List Str × List Str)) (m : List (Str × Str)) :
    jerScore (data.map (fun d => (d.1, d.2.1, d.2.2.map σ)))
        (m.map (fun p => (p.1, σ p.2))) = jerScore data m := by
  unfold jerScore
  rw [List.map_map]
  exact congrArg List.sum (List.map_congr_left (fun p hp => jaccard_relabel hσ data p.1 p.2))

lemma bestJerScore_relabel {σ : Str → Str} (hσ : Function.Injective σ)
    (data : List (ℚ × List Str × List Str)) (rl hl : List Str) :
    bestJerScore (data.map (fun d => (d.1, d.2.1, d.2.2.map σ))) rl (hl.map σ) =
      bestJerScore data rl hl := by
  unfold bestJerScore
  rw [matchings_map_right σ hσ, List.map_map]
  exact congrArg (List.foldl max 0)
    (List.map_congr_left (fun m hm => jerScore_relabel hσ data m))

lemma DERResult.ext' {x y : DERResult} (h1 : x.der = y.der) (h2 : x.miss = y.miss)
    (h3 : x.false_alarm = y.false_alarm) (h4 : x.confusion = y.confusion)
    (h5 : x.total = y.total) (h6 : x.undefined = y.undefined) : x = y := by
  cases x
  cases y
  simp_all

/-- C3: relabeling all hypothesis speakers by a bijection on labels leaves
both the whole DER result of `compute_der` (every component, for every
collar and skip_overlap setting) and the JER value of `compute_jer`
unchanged — the optimal one-to-one speaker mapping is invariant to label
naming. -/
theorem C3_label_invariance (σ : Str → Str) (hσ : Function.Bijective σ)
    (ref hyp : Timeline) (c : ℚ) (sk : Bool) :
    compute_der ref (relabel σ hyp) c sk = compute_der ref hyp c sk ∧
      compute_jer ref (relabel σ hyp) = compute_jer ref hyp := by
  have hinj := hσ.injective
  have hdata := scoredData_relabel_hyp hinj ref hyp c sk
  constructor
  · refine DERResult.ext' ?_ ?_ ?_ ?_ ?_ ?_
    · rw [compute_der_der, compute_der_der, hdata, labelsOf_relabel hinj,
        derTotal_relabel, derMiss_relabel, derFalseAlarm_relabel, derMinSum_relabel,
        bestScore_relabel hinj]
    · rw [compute_der_miss, compute_der_miss, hdata, derMiss_relabel]
    · rw [compute_der_falseAlarm, compute_der_falseAlarm, hdata, derFalseAlarm_relabel]
    · rw [compute_der_confusion, compute_der_confusion, hdata, labelsOf_relabel hinj,
        derMinSum_relabel, bestScore_relabel hinj]
    · rw [compute_der_total, compute_der_total, hdata, derTotal_relabel]
    · rw [compute_der_undefined, compute_der_undefined, hdata, derTotal_relabel]
  · have hjd := jerData_relabel_hyp hinj ref hyp
    unfold compute_jer
    simp only [hjd, labelsOf_relabel hinj, List.length_map, bestJerScore_relabel hinj]

/-- Label swap exchanging the speakers `"A"` and `"B"`, a concrete
bijection for the C3 witness. -/
def swapAB : Str → Str :=
  fun s => if s = "A".data then "B".data else if s = "B".data then "A".data else s

lemma swapAB_involutive : Function.Involutive swapAB := by
  intro s
  by_cases h1 : s = "A".data
  · subst h1
    decide
  · by_cases h2 : s = "B".data
    · subst h2
      decide
    · simp [swapAB, h1, h2]

lemma swapAB_bijective : Function.Bijective swapAB := swapAB_involutive.bijective

/-- Witness for C3 at concrete one-segment timelines and the `"A"`/`"B"`
label swap. -/
theorem C3_label_invariance_witness :
    Function.Bijective swapAB ∧
      (compute_der [⟨0, 1, "A".data⟩] (relabel swapAB [⟨0, 1, "B".data⟩]) (1/4) false =
          compute_der [⟨0, 1, "A".data⟩] [⟨0, 1, "B".data⟩] (1/4) false ∧
        compute_jer [⟨0, 1, "A".data⟩] (relabel swapAB [⟨0, 1, "B".data⟩]) =
          compute_jer [⟨0, 1, "A".data⟩] [⟨0, 1, "B".data⟩]) :=
  ⟨swapAB_bijective,
    C3_label_invariance swapAB swapAB_bijective [⟨0, 1, "A".data⟩] [⟨0, 1, "B".data⟩]
      (1/4) false⟩

lemma good_ref_nil {hyp : Timeline} {c : ℚ} {sk : Bool} :
    ∀ d ∈ scoredData [] hyp c sk, d.2.1 = [] := by
  intro d hd
  rcases scoredData_good [] hyp c sk d hd with ⟨a, b, hab, rfl⟩
  rfl

lemma derTotal_ref_nil {data : List (ℚ × List Str × List Str)}
    (h : ∀ d ∈ data, d.2.1 = []) : derTotal data = 0 := by
  apply List.sum_eq_zero
  intro x hx
  rcases List.mem_map.mp hx with ⟨d, hd, rfl⟩
  rw [h d hd]
  simp

/-- C4: for the empty reference timeline and any hypothesis, `compute_der`
returns a result whose `total` component is `0` and whose explicit
`undefined` signal is set, for the caller to check before dividing or
displaying. -/
theorem C4_empty_reference_undefined (hyp : Timeline) (c : ℚ) (sk : Bool) :
    (compute_der [] hyp c sk).total = 0 ∧ (compute_der [] hyp c sk).undefined = true := by
  have ht : derTotal (scoredData [] hyp c sk) = 0 := derTotal_ref_nil good_ref_nil
  constructor
  · rw [compute_der_total, ht]
  · rw [compute_der_undefined, ht]
    simp

lemma der_nonneg (ref hyp : Timeline) (c : ℚ) (sk : Bool) :
    0 ≤ (compute_der ref hyp c sk).der := by
  rw [compute_der_der]
  have hg := scoredData_good ref hyp c sk
  have hd := good_dur_nonneg hg
  by_cases ht : derTotal (scoredData ref hyp c sk) = 0
  · rw [if_pos ht]
  · rw [if_neg ht]
    have h1 := derMiss_nonneg hd
    have h2 := derFalseAlarm_nonneg hd
    have h3 := bestScore_le_derMinSum hg
    have h4 := derTotal_nonneg hd
    apply div_nonneg _ h4
    linarith

/-- C8: for a fixed reference/hypothesis pair whose errors cluster at the
reference turn boundaries — formalized as: after excluding the `± c2`
collar windows no scored error mass remains — and any smaller collar
`c1 ≤ c2`, the DER at collar `c2` is at most the DER at collar `c1`
(non-strict). -/
theorem C8_collar_monotonicity (R H : Timeline) (c1 c2 : ℚ) (sk : Bool)
    (hc : c1 ≤ c2)
    (herr : (compute_der R H c2 sk).miss + (compute_der R H c2 sk).false_alarm +
      (compute_der R H c2 sk).confusion = 0) :
    (compute_der R H c2 sk).der ≤ (compute_der R H c1 sk).der := by
  have h0 : (compute_der R H c2 sk).der = 0 := by
    rw [compute_der_der]
    by_cases ht : derTotal (scoredData R H c2 sk) = 0
    · rw [if_pos ht]
    · rw [if_neg ht]
      rw [compute_der_miss, compute_der_falseAlarm, compute_der_confusion] at herr
      rw [herr]
      simp
  rw [h0]
  exact der_nonneg R H c1 sk

/-- Witness for C8: identical one-segment reference and hypothesis, collars
`0 ≤ 0.25`; all error components at the larger collar are zero. -/
theorem C8_collar_monotonicity_witness :
    (0 : ℚ) ≤ 1/4 ∧
      ((compute_der [⟨0, 1, "A".data⟩] [⟨0, 1, "A".data⟩] (1/4) false).miss +
        (compute_der [⟨0, 1, "A".data⟩] [⟨0, 1, "A".data⟩] (1/4) false).false_alarm +
        (compute_der [⟨0, 1, "A".data⟩] [⟨0, 1, "A".data⟩] (1/4) false).confusion = 0) ∧
      (compute_der [⟨0, 1, "A".data⟩] [⟨0, 1, "A".data⟩] (1/4) false).der ≤
        (compute_der [⟨0, 1, "A".data⟩] [⟨0, 1, "A".data⟩] 0 false).der := by
  have hg := scoredData_good [⟨0, 1, "A".data⟩] [⟨0, 1, "A".data⟩] (1/4) false
  have herr : (compute_der [⟨0, 1, "A".data⟩] [⟨0, 1, "A".data⟩] (1/4) false).miss +
      (compute_der [⟨0, 1, "A".data⟩] [⟨0, 1, "A".data⟩] (1/4) false).false_alarm +
      (compute_der [⟨0, 1, "A".data⟩] [⟨0, 1, "A".data⟩] (1/4) false).confusion = 0 := by
    rw [compute_der_miss, compute_der_falseAlarm, compute_der_confusion,
      derMiss_eq_zero (good_ref_eq_hyp hg), derFalseAlarm_eq_zero (good_ref_eq_hyp hg),
      bestScore_identity hg]
    ring
  exact ⟨by norm_num, herr,
    C8_collar_monotonicity [⟨0, 1, "A".data⟩] [⟨0, 1, "A".data⟩] 0 (1/4) false
      (by norm_num) herr⟩

lemma parseLine_skip {line : Str}
    (h : strTrim line = [] ∨ (strTrim line).headD ' ' = '#' ∨
      (splitWS (strTrim line)).length < 8 ∨
      (splitWS (strTrim line)).getD 0 [] ≠ speakerTag) :
    parseLine line = .ok none := by
  simp only [parseLine]
  by_cases h1 : (strTrim line).isEmpty
  · simp [h1]
  · rw [if_neg (by simpa using h1)]
    by_cases h2 : (strTrim line).headD ' ' = '#'
    · rw [if_pos h2]
    · rw [if_neg h2]
      rcases h with he | hh | hlen | htag
      · exact absurd (by simp [he, List.isEmpty_iff]) h1
      · exact absurd hh h2
      · rw [if_pos (Or.inl hlen)]
      · rw [if_pos (Or.inr htag)]

lemma parseLine_valid {line : Str} {s d : ℚ}
    (h1 : strTrim line ≠ []) (h2 : (strTrim line).headD ' ' ≠ '#')
    (h3 : 8 ≤ (splitWS (strTrim line)).length)
    (h4 : (splitWS (strTrim line)).getD 0 [] = speakerTag)
    (h5 : parseFloat ((splitWS (strTrim line)).getD 3 []) = some s)
    (h6 : parseFloat ((splitWS (strTrim line)).getD 4 []) = some d) :
    parseLine line = .ok (some ⟨s, s + d, (splitWS (strTrim line)).getD 7 []⟩) := by
  simp only [parseLine]
  rw [if_neg (by simpa [List.isEmpty_iff] using h1), if_neg h2,
    if_neg (by push_neg; exact ⟨h3, h4⟩), h5, h6]

lemma parseFloat_eval_00 : parseFloat (("0.0").data) = some 0 := by
  norm_num +decide [parseFloat, parseUFloat, strTrim, wsChar, digitsAux, digitVal,
    parseExpTail, List.dropWhile]

lemma parseFloat_eval_25 : parseFloat (("2.5").data) = some (5/2) := by
  norm_num +decide [parseFloat, parseUFloat, strTrim, wsChar, digitsAux, digitVal,
    parseExpTail, List.dropWhile]

lemma parseFloat_eval_30 : parseFloat (("3.0").data) = some 3 := by
  norm_num +decide [parseFloat, parseUFloat, strTrim, wsChar, digitsAux, digitVal,
    parseExpTail, List.dropWhile]

lemma parseLine_rt1 : parseLine (("SPEAKER f1 1 0.0 2.5 <NA> <NA> A <NA>").data) =
    .ok (some ⟨0, 5/2, ("A").data⟩) := by
  have h := @parseLine_valid (("SPEAKER f1 1 0.0 2.5 <NA> <NA> A <NA>").data)
    0 (5/2) (by decide) (by decide) (by decide) (by decide)
    (by rw [show (splitWS (strTrim (("SPEAKER f1 1 0.0 2.5 <NA> <NA> A <NA>").data))).getD 3 [] =
        ("0.0").data by decide]; exact parseFloat_eval_00)
    (by rw [show (splitWS (strTrim (("SPEAKER f1 1 0.0 2.5 <NA> <NA> A <NA>").data))).getD 4 [] =
        ("2.5").data by decide]; exact parseFloat_eval_25)
  rw [h, show (splitWS (strTrim (("SPEAKER f1 1 0.0 2.5 <NA> <NA> A <NA>").data))).getD 7 [] =
    ("A").data by decide]
  norm_num

lemma parseLine_rt2 : parseLine (("SPEAKER f1 1 2.5 3.0 <NA> <NA> B <NA>").data) =
    .ok (some ⟨5/2, 11/2, ("B").data⟩) := by
  have h := @parseLine_valid (("SPEAKER f1 1 2.5 3.0 <NA> <NA> B <NA>").data)
    (5/2) 3 (by decide) (by decide) (by decide) (by decide)
    (by rw [show (splitWS (strTrim (("SPEAKER f1 1 2.5 3.0 <NA> <NA> B <NA>").data))).getD 3 [] =
        ("2.5").data by decide]; exact parseFloat_eval_25)
    (by rw [show (splitWS (strTrim (("SPEAKER f1 1 2.5 3.0 <NA> <NA> B <NA>").data))).getD 4 [] =
        ("3.0").data by decide]; exact parseFloat_eval_30)
  rw [h, show (splitWS (strTrim (("SPEAKER f1 1 2.5 3.0 <NA> <NA> B <NA>").data))).getD 7 [] =
    ("B").data by decide]
  norm_num

lemma parseLine_nil : parseLine [] = .ok none := parseLine_skip (Or.inl rfl)

lemma parseLines_cons_some {l : Str} {ls : List Str} {seg : LSeg}
    (h : parseLine l = .ok (some seg)) :
    parseLines (l :: ls) = (parseLines ls).map (fun t => seg :: t) := by
  simp only [parseLines, h]

lemma parseLines_cons_none {l : Str} {ls : List Str} (h : parseLine l = .ok none) :
    parseLines (l :: ls) = parseLines ls := by
  simp only [parseLines, h]

lemma roundTrip_eval :
    rttm_to_timeline
        (("SPEAKER f1 1 0.0 2.5 <NA> <NA> A <NA>\nSPEAKER f1 1 2.5 3.0 <NA> <NA> B <NA>\n").data) =
      .ok [⟨0, 5/2, ("A").data⟩, ⟨5/2, 11/2, ("B").data⟩] := by
  have hl : strLines
      (("SPEAKER f1 1 0.0 2.5 <NA> <NA> A <NA>\nSPEAKER f1 1 2.5 3.0 <NA> <NA> B <NA>\n").data) =
      [("SPEAKER f1 1 0.0 2.5 <NA> <NA> A <NA>").data,
       ("SPEAKER f1 1 2.5 3.0 <NA> <NA> B <NA>").data, []] := by
    decide
  rw [rttm_to_timeline, hl, parseLines_cons_some parseLine_rt1,
    parseLines_cons_some parseLine_rt2, parseLines_cons_none parseLine_nil]
  rfl

/-- C5: the RTTM parser skips (without raising) blank lines, `#` comment
lines, lines with fewer than 8 whitespace-separated fields, and lines
whose first field is not `SPEAKER`; every remaining line whose fields 4
and 5 parse as floats produces exactly the labeled segment
`(start, start + duration, field 8)`; and parsing the two-line round-trip
input yields exactly the segments `(0, 2.5, "A")` and `(2.5, 5.5, "B")`. -/
theorem C5_rttm_parser_behavior :
    (∀ line : Str,
        strTrim line = [] ∨ (strTrim line).headD ' ' = '#' ∨
          (splitWS (strTrim line)).length < 8 ∨
          (splitWS (strTrim line)).getD 0 [] ≠ speakerTag →
        parseLine line = .ok none) ∧
      (∀ (line : Str) (s d : ℚ),
        strTrim line ≠ [] → (strTrim line).headD ' ' ≠ '#' →
        8 ≤ (splitWS (strTrim line)).length →
        (splitWS (strTrim line)).getD 0 [] = speakerTag →
        parseFloat ((splitWS (strTrim line)).getD 3 []) = some s →
        parseFloat ((splitWS (strTrim line)).getD 4 []) = some d →
        parseLine line = .ok (some ⟨s, s + d, (splitWS (strTrim line)).getD 7 []⟩)) ∧
      rttm_to_timeline
          (("SPEAKER f1 1 0.0 2.5 <NA> <NA> A <NA>\nSPEAKER f1 1 2.5 3.0 <NA> <NA> B <NA>\n").data) =
        .ok [⟨0, 5/2, ("A").data⟩, ⟨5/2, 11/2, ("B").data⟩] :=
  ⟨fun _ h => parseLine_skip h,
   fun _ _ _ h1 h2 h3 h4 h5 h6 => parseLine_valid h1 h2 h3 h4 h5 h6,
   roundTrip_eval⟩

/-- Witness for C5: a comment line and a short line are skipped, a valid
line produces its one segment, and the round-trip input parses to the two
expected segments. -/
theorem C5_rttm_parser_behavior_witness :
    parseLine (("# comment").data) = .ok none ∧
      parseLine (("SPEAKER f1 1 0.0").data) = .ok none ∧
      parseLine (("SPEAKER f1 1 0.0 2.5 <NA> <NA> A <NA>").data) =
        .ok (some ⟨0, 0 + 5/2,
          (splitWS (strTrim (("SPEAKER f1 1 0.0 2.5 <NA> <NA> A <NA>").data))).getD 7 []⟩) ∧
      rttm_to_timeline
          (("SPEAKER f1 1 0.0 2.5 <NA> <NA> A <NA>\nSPEAKER f1 1 2.5 3.0 <NA> <NA> B <NA>\n").data) =
        .ok [⟨0, 5/2, ("A").data⟩, ⟨5/2, 11/2, ("B").data⟩] :=
  ⟨C5_rttm_parser_behavior.1 _ (Or.inr (Or.inl (by decide))),
   C5_rttm_parser_behavior.1 _ (Or.inr (Or.inr (Or.inl (by decide)))),
   C5_rttm_parser_behavior.2.1 _ 0 (5/2) (by decide) (by decide) (by decide) (by decide)
     (by rw [show (splitWS (strTrim (("SPEAKER f1 1 0.0 2.5 <NA> <NA> A <NA>").data))).getD 3 [] =
         ("0.0").data by decide]; exact parseFloat_eval_00)
     (by rw [show (splitWS (strTrim (("SPEAKER f1 1 0.0 2.5 <NA> <NA> A <NA>").data))).getD 4 [] =
         ("2.5").data by decide]; exact parseFloat_eval_25),
   C5_rttm_parser_behavior.2.2⟩

/-- A line the RTTM parser skips: blank after stripping, a `#` comment,
fewer than 8 fields, or a first field other than `SPEAKER`. -/
def SkipLine (l : Str) : Prop :=
  strTrim l = [] ∨ (strTrim l).headD ' ' = '#' ∨
    (splitWS (strTrim l)).length < 8 ∨ (splitWS (strTrim l)).getD 0 [] ≠ speakerTag

/-- Two lines the parser treats identically: both skipped, or both kept
with the same whitespace-separated fields 4 (start), 5 (duration) and 8
(speaker) — the only fields a kept line's result depends on. -/
def FieldAgree (l1 l2 : Str) : Prop :=
  (SkipLine l1 ∧ SkipLine l2) ∨
    (¬ SkipLine l1 ∧ ¬ SkipLine l2 ∧
      (splitWS (strTrim l1)).getD 3 [] = (splitWS (strTrim l2)).getD 3 [] ∧
      (splitWS (strTrim l1)).getD 4 [] = (splitWS (strTrim l2)).getD 4 [] ∧
      (splitWS (strTrim l1)).getD 7 [] = (splitWS (strTrim l2)).getD 7 [])

instance SkipLine.instDecidable (l : Str) : Decidable (SkipLine l) := by
  unfold SkipLine
  infer_instance

instance FieldAgree.instDecidable (l1 l2 : Str) : Decidable (FieldAgree l1 l2) := by
  unfold FieldAgree
  infer_instance

lemma parseLine_congr {l1 l2 : Str} (h : FieldAgree l1 l2) : parseLine l1 = parseLine l2 := by
  rcases h with ⟨hs1, hs2⟩ | ⟨hk1, hk2, e3, e4, e7⟩
  · rw [parseLine_skip hs1, parseLine_skip hs2]
  · rw [SkipLine] at hk1 hk2
    push_neg at hk1 hk2
    obtain ⟨h1a, h1b, h1c, h1d⟩ := hk1
    obtain ⟨h2a, h2b, h2c, h2d⟩ := hk2
    simp only [parseLine]
    rw [if_neg (by simpa [List.isEmpty_iff] using h1a), if_neg h1b,
      if_neg (by push_neg; exact ⟨h1c, h1d⟩),
      if_neg (by simpa [List.isEmpty_iff] using h2a), if_neg h2b,
      if_neg (by push_neg; exact ⟨h2c, h2d⟩),
      e3, e4, e7]

lemma parseLines_congr {ls1 ls2 : List Str} (h : List.Forall₂ FieldAgree ls1 ls2) :
    parseLines ls1 = parseLines ls2 := by
  induction h with
  | nil => rfl
  | cons hrel hrest ih => simp only [parseLines, parseLine_congr hrel, ih]

/-- C10: the result of a kept RTTM line depends only on fields 4, 5 and 8;
line-wise, inputs whose lines pairwise agree on those fields (or are
pairwise skipped) parse to identical timelines; and lines carrying
different file-ids are merged into the single returned timeline. -/
theorem C10_field_dependence :
    (∀ l1 l2 : Str, FieldAgree l1 l2 → parseLine l1 = parseLine l2) ∧
      (∀ ls1 ls2 : List Str, List.Forall₂ FieldAgree ls1 ls2 →
        parseLines ls1 = parseLines ls2) ∧
      rttm_to_timeline
          (("SPEAKER f1 1 0.0 2.5 <NA> <NA> A <NA>\nSPEAKER f2 1 2.5 3.0 <NA> <NA> B <NA>\n").data) =
        .ok [⟨0, 5/2, ("A").data⟩, ⟨5/2, 11/2, ("B").data⟩] := by
  refine ⟨fun _ _ h => parseLine_congr h, fun _ _ h => parseLines_congr h, ?_⟩
  have hl : strLines
      (("SPEAKER f1 1 0.0 2.5 <NA> <NA> A <NA>\nSPEAKER f2 1 2.5 3.0 <NA> <NA> B <NA>\n").data) =
      [("SPEAKER f1 1 0.0 2.5 <NA> <NA> A <NA>").data,
       ("SPEAKER f2 1 2.5 3.0 <NA> <NA> B <NA>").data, []] := by
    decide
  have h2 : parseLine (("SPEAKER f2 1 2.5 3.0 <NA> <NA> B <NA>").data) =
      .ok (some ⟨5/2, 11/2, ("B").data⟩) :=
    (@parseLine_congr (("SPEAKER f2 1 2.5 3.0 <NA> <NA> B <NA>").data)
      (("SPEAKER f1 1 2.5 3.0 <NA> <NA> B <NA>").data) (by decide)).trans parseLine_rt2
  rw [rttm_to_timeline, hl, parseLines_cons_some parseLine_rt1,
    parseLines_cons_some h2, parseLines_cons_none parseLine_nil]
  rfl

/-- Witness for C10: a `SPEAKER` line and a variant with different file-id,
channel, placeholder fields and an extra trailing field parse equally; a
comment/blank pair plus that pair lift to whole inputs; the different
file-id merge input parses to the two expected segments. -/
theorem C10_field_dependence_witness :
    parseLine (("SPEAKER f1 1 0.0 2.5 <NA> <NA> A <NA>").data) =
      parseLine (("SPEAKER other 2 0.0 2.5 x y A z extra").data) ∧
      parseLines [("# note").data, ("SPEAKER f1 1 0.0 2.5 <NA> <NA> A <NA>").data] =
        parseLines [(" ").data, ("SPEAKER other 2 0.0 2.5 x y A z extra").data] ∧
      rttm_to_timeline
          (("SPEAKER f1 1 0.0 2.5 <NA> <NA> A <NA>\nSPEAKER f2 1 2.5 3.0 <NA> <NA> B <NA>\n").data) =
        .ok [⟨0, 5/2, ("A").data⟩, ⟨5/2, 11/2, ("B").data⟩] :=
  ⟨C10_field_dependence.1 _ _ (by decide),
   C10_field_dependence.2.1 _ _
     (List.Forall₂.cons (by decide) (List.Forall₂.cons (by decide) List.Forall₂.nil)),
   C10_field_dependence.2.2⟩

lemma except_map_error_iff {α β γ : Type} (x : Except γ α) (f : α → β) :
    (∃ err, x.map f = .error err) ↔ (∃ err, x = .error err) := by
  cases x <;> simp [Except.map]

lemma entriesToSegs_error_iff (es : List SegEntry) :
    (∃ err, entriesToSegs es = .error err) ↔
      ∃ e ∈ es, (e.start? = none ∨ e.stop? = none ∨ e.speaker? = none) := by
  induction es with
  | nil => simp [entriesToSegs]
  | cons e es ih =>
    rcases e with ⟨s, t, sp⟩
    cases s <;> cases t <;> cases sp <;>
      simp [entriesToSegs, entryToSeg, except_map_error_iff, ih]

/-- C6: `hypothesis_to_timeline` fails with the `KeyError` signal exactly
when some entry of the `segments` list lacks its `start`, `end` or
`speaker` key; a record with no `segments` key at all yields the empty
timeline without error (and hence a structurally complete record never
errors). -/
theorem C6_hypothesis_shape :
    hypothesis_to_timeline none = .ok [] ∧
      ∀ record : Option (List SegEntry),
        ((∃ err, hypothesis_to_timeline record = .error err) ↔
          ∃ e ∈ record.getD [], (e.start? = none ∨ e.stop? = none ∨ e.speaker? = none)) := by
  refine ⟨rfl, fun record => ?_⟩
  unfold hypothesis_to_timeline
  exact entriesToSegs_error_iff (record.getD [])

/-- Witness for C6 at the absent-`segments` record and a record with one
entry missing its `speaker` key. -/
theorem C6_hypothesis_shape_witness :
    hypothesis_to_timeline none = .ok [] ∧
      ((∃ err, hypothesis_to_timeline (some [⟨some 0, some 1, none⟩]) = .error err) ↔
        ∃ e ∈ (some [(⟨some 0, some 1, none⟩ : SegEntry)] : Option (List SegEntry)).getD [],
          (e.start? = none ∨ e.stop? = none ∨ e.speaker? = none)) :=
  ⟨C6_hypothesis_shape.1, C6_hypothesis_shape.2 (some [⟨some 0, some 1, none⟩])⟩

lemma foldl_agg_add (items : List (MRecord × Option Str)) (acc : AggState) :
    items.foldl (fun s it => agg_add it.1 it.2 s) acc =
      acc ++ items.map (fun it => ⟨it.1, it.2⟩) := by
  induction items generalizing acc with
  | nil => simp
  | cons it items ih =>
    rw [List.foldl_cons, ih]
    simp [agg_add, List.append_assoc]

/-- C9: `aggregate` is a pure function of the accumulated state — the state
it returns is the state it was given, calling it twice in a row gives the
same mapping, and `get_per_file_metrics` afterwards returns exactly the
added records in insertion order. -/
theorem C9_aggregator_frame (sqrt : ℚ → ℚ) (items : List (MRecord × Option Str)) :
    (aggregateCall sqrt (items.foldl (fun s it => agg_add it.1 it.2 s) [])).1 =
        (aggregateCall sqrt
          (aggregateCall sqrt (items.foldl (fun s it => agg_add it.1 it.2 s) [])).2).1 ∧
      (aggregateCall sqrt (items.foldl (fun s it => agg_add it.1 it.2 s) [])).2 =
        items.foldl (fun s it => agg_add it.1 it.2 s) [] ∧
      (getPerFileCall
          (aggregateCall sqrt (items.foldl (fun s it => agg_add it.1 it.2 s) [])).2).1 =
        items.map (fun it => ⟨it.1, it.2⟩) := by
  refine ⟨rfl, rfl, ?_⟩
  show items.foldl (fun s it => agg_add it.1 it.2 s) [] = items.map (fun it => ⟨it.1, it.2⟩)
  rw [foldl_agg_add]
  rfl

/-- Association lookup in the `metric_values` mapping. -/
def lookupVals (k : Str) : List (Str × List ℚ) → Option (List ℚ)
  | [] => none
  | e :: es => if e.1 = k then some e.2 else lookupVals k es

lemma lookupVals_upsert_same (k : Str) (v : ℚ) (acc : List (Str × List ℚ)) :
    lookupVals k (upsert k v acc) = some ((lookupVals k acc).getD [] ++ [v]) := by
  induction acc with
  | nil => simp [upsert, lookupVals]
  | cons e es ih =>
    by_cases he : e.1 = k
    · simp [upsert, lookupVals, he]
    · simp [upsert, lookupVals, he, ih]

lemma lookupVals_upsert_ne (k k' : Str) (v : ℚ) (acc : List (Str × List ℚ)) (h : k ≠ k') :
    lookupVals k' (upsert k v acc) = lookupVals k' acc := by
  induction acc with
  | nil => simp [upsert, lookupVals, h]
  | cons e es ih =>
    by_cases he : e.1 = k
    · have h2 : ¬ (e.1 = k') := by rw [he]; exact h
      simp [upsert, lookupVals, he, h2, h]
    · by_cases he2 : e.1 = k'
      · simp [upsert, lookupVals, he, he2, Ne.symm h]
      · simp [upsert, lookupVals, he, he2, ih]

lemma lookupVals_fold (entries : List (Str × ℚ)) (acc : List (Str × List ℚ)) (k : Str) :
    lookupVals k (entries.foldl (fun a kv => upsert kv.1 kv.2 a) acc) =
      (match lookupVals k acc with
       | some vs => some (vs ++ entries.filterMap (fun kv => if kv.1 = k then some kv.2 else none))
       | none =>
         if entries.filterMap (fun kv => if kv.1 = k then some kv.2 else none) = [] then none
         else some (entries.filterMap (fun kv => if kv.1 = k then some kv.2 else none))) := by
  induction entries generalizing acc with
  | nil =>
    cases h : lookupVals k acc <;> simp [h]
  | cons kv entries ih =>
    simp only [List.foldl_cons, List.filterMap_cons]
    by_cases hk : kv.1 = k
    · subst hk
      rw [ih, lookupVals_upsert_same]
      simp only [if_pos rfl]
      cases h : lookupVals kv.1 acc with
      | none => simp [h]
      | some vs => simp [h]
    · rw [ih, lookupVals_upsert_ne _ _ _ _ hk]
      simp only [if_neg hk]

lemma metricValues_lookup (st : AggState) (k : Str) :
    lookupVals k (metricValues st) =
      if collectNums k st = [] then none else some (collectNums k st) := by
  unfold metricValues collectNums
  rw [lookupVals_fold]
  rfl

lemma lookupVals_mem {k : Str} {vs : List ℚ} {l : List (Str × List ℚ)}
    (h : lookupVals k l = some vs) : (k, vs) ∈ l := by
  induction l with
  | nil => cases h
  | cons e es ih =>
    by_cases he : e.1 = k
    · rw [lookupVals, if_pos he] at h
      obtain rfl := Option.some_inj.mp h
      rw [← he, Prod.mk.eta]
      exact List.mem_cons_self e es
    · rw [lookupVals, if_neg he] at h
      exact List.mem_cons_of_mem _ (ih h)

lemma mem_foldr_statEntries (sqrt : ℚ → ℚ) {l : List (Str × List ℚ)} {kv : Str × List ℚ}
    (hkv : kv ∈ l) {x : Str × ℚ} (hx : x ∈ statEntries sqrt kv.1 kv.2) :
    x ∈ l.foldr (fun kv acc => statEntries sqrt kv.1 kv.2 ++ acc) [] := by
  induction l with
  | nil => cases hkv
  | cons e es ih =>
    rcases List.mem_cons.mp hkv with rfl | h
    · exact List.mem_append_left _ hx
    · exact List.mem_append_right _ (ih h)

lemma mem_aggregate_of_statEntry (sqrt : ℚ → ℚ) {st : AggState} (hst : st ≠ [])
    {kv : Str × List ℚ} (hkv : kv ∈ metricValues st) {x : Str × ℚ}
    (hx : x ∈ statEntries sqrt kv.1 kv.2) : x ∈ aggregate sqrt st := by
  unfold aggregate
  rw [if_neg (by simpa [List.isEmpty_iff] using hst)]
  exact List.mem_append_left _ (mem_foldr_statEntries sqrt hkv hx)

/-- The three-record state of the aggregation-determinism test: per-file
DER values `0.1`, `0.2`, `0.3`. -/
def derSt3 : AggState :=
  [⟨[(("DER").data, MVal.num (1/10))], none⟩,
   ⟨[(("DER").data, MVal.num (2/10))], none⟩,
   ⟨[(("DER").data, MVal.num (3/10))], none⟩]

/-- C7 counterexample: with no records added, `aggregate` returns the empty
dictionary, so no `num_files` entry equal to the count (`0`) is added —
the claim fails for the empty sequence of records. -/
theorem C7_aggregate_counterexample :
    aggregate (fun q => q) [] = [] ∧
      lookupQ numFilesKey (aggregate (fun q => q) []) = none :=
  ⟨rfl, rfl⟩

/-- C7 (amended): for every non-empty sequence of added records,
`aggregate` emits, for each metric key collected from the numeric values
across the records (in order), the mean, the sample standard deviation
(`0.0` when fewer than 2 samples), min, max and median of those values,
plus `num_files` equal to the record count; on per-file DER values
`0.1, 0.2, 0.3` this gives mean `0.2`, min `0.1`, max `0.3`, median
`0.2`, count `3`. -/
theorem C7_aggregate_statistics :
    (∀ (st : AggState) (k : Str),
        lookupVals k (metricValues st) =
          if collectNums k st = [] then none else some (collectNums k st)) ∧
      (∀ (sqrt : ℚ → ℚ) (st : AggState) (k : Str) (vs : List ℚ), st ≠ [] →
        lookupVals k (metricValues st) = some vs →
        ((k ++ meanSuffix, meanQ vs) ∈ aggregate sqrt st ∧
          (k ++ stdSuffix, if 1 < vs.length then sqrt (svarQ vs) else 0) ∈ aggregate sqrt st ∧
          (k ++ minSuffix, minimumQ vs) ∈ aggregate sqrt st ∧
          (k ++ maxSuffix, maximumQ vs) ∈ aggregate sqrt st ∧
          (k ++ medianSuffix, medianQ vs) ∈ aggregate sqrt st)) ∧
      (∀ (sqrt : ℚ → ℚ) (st : AggState), st ≠ [] →
        (numFilesKey, (st.length : ℚ)) ∈ aggregate sqrt st) ∧
      (∀ sqrt : ℚ → ℚ,
        lookupQ (("DER_mean").data) (aggregate sqrt derSt3) = some (1/5) ∧
        lookupQ (("DER_min").data) (aggregate sqrt derSt3) = some (1/10) ∧
        lookupQ (("DER_max").data) (aggregate sqrt derSt3) = some (3/10) ∧
        lookupQ (("DER_median").data) (aggregate sqrt derSt3) = some (1/5) ∧
        lookupQ numFilesKey (aggregate sqrt derSt3) = some 3) := by
  refine ⟨metricValues_lookup, ?_, ?_, ?_⟩
  · intro sqrt st k vs hst hl
    have hkv : (k, vs) ∈ metricValues st := lookupVals_mem hl
    refine ⟨?_, ?_, ?_, ?_, ?_⟩ <;>
      exact mem_aggregate_of_statEntry sqrt hst hkv (by simp [statEntries])
  · intro sqrt st hst
    unfold aggregate
    rw [if_neg (by simpa [List.isEmpty_iff] using hst)]
    exact List.mem_append_right _ (List.mem_singleton.mpr rfl)
  · intro sqrt
    refine ⟨?_, ?_, ?_, ?_, ?_⟩ <;>
      norm_num +decide [aggregate, metricValues, flatNums, numsOfRecord, upsert,
        statEntries, meanQ, svarQ, minimumQ, maximumQ, medianQ, sortQ, insertSorted,
        lookupQ, meanSuffix, stdSuffix, minSuffix, maxSuffix, medianSuffix, numFilesKey,
        derSt3, List.filterMap_cons]

/-- Witness for the amended C7 at the three-record DER state. -/
theorem C7_aggregate_statistics_witness :
    derSt3 ≠ [] ∧
      lookupVals (("DER").data) (metricValues derSt3) = some [1/10, 2/10, 3/10] ∧
      ((("DER").data ++ meanSuffix, meanQ [1/10, 2/10, 3/10]) ∈ aggregate (fun q => q) derSt3 ∧
        (("DER").data ++ stdSuffix,
          if 1 < ([1/10, 2/10, 3/10] : List ℚ).length then (fun q => q) (svarQ [1/10, 2/10, 3/10])
          else 0) ∈ aggregate (fun q => q) derSt3 ∧
        (("DER").data ++ minSuffix, minimumQ [1/10, 2/10, 3/10]) ∈ aggregate (fun q => q) derSt3 ∧
        (("DER").data ++ maxSuffix, maximumQ [1/10, 2/10, 3/10]) ∈ aggregate (fun q => q) derSt3 ∧
        (("DER").data ++ medianSuffix, medianQ [1/10, 2/10, 3/10]) ∈
          aggregate (fun q => q) derSt3) ∧
      (numFilesKey, (derSt3.length : ℚ)) ∈ aggregate (fun q => q) derSt3 := by
  have hlook : lookupVals (("DER").data) (metricValues derSt3) = some [1/10, 2/10, 3/10] :=
    rfl
  exact ⟨by simp [derSt3], hlook,
    C7_aggregate_statistics.2.1 (fun q => q) derSt3 (("DER").data) [1/10, 2/10, 3/10]
      (by simp [derSt3]) hlook,
    C7_aggregate_statistics.2.2.1 (fun q => q) derSt3 (by simp [derSt3])⟩
